import Mathlib

set_option maxHeartbeats 1000000
set_option maxRecDepth 8000

/-!
Verification of the batch quantification pipeline of
`toolkit_lib/quantification.py` (class `QuantificationWorker`):
staged classification resume (`_run_ilastik_classification`),
per-region analysis (`_analyze_results`), the orchestrating
background run (`doInBackground`), and result aggregation and
persistence (`done`).

External collaborators (ImageJ image handles, the two ilastik
classifier stages, the ROI files, the outline saver) are modelled
as an explicit environment; the control flow, bookkeeping, file
writes, statuses and aggregation arithmetic are translated
directly from the source.
-/

/-- An open raster image window; `imgId` models `ImagePlus.getID()`. -/
structure Img where
  imgId : ℤ
deriving DecidableEq

/-- The two external classifier stages invoked by the resumer. -/
inductive StageCall where
  | pixel
  | object
deriving DecidableEq

/-- Bregma tag as stored in the ROI "comment" property (source lines
234-238): absent (or empty string), present but unparseable, or a
parsed numeric value. -/
inductive BregmaProp where
  | absent
  | unparseable
  | val (q : ℚ)
deriving DecidableEq

/-- Value of `bregma_val` computed at source lines 235-238:
`float(s) if s else 0.0`, with `ValueError`/`TypeError` mapped to 0.0. -/
def bregmaOf : BregmaProp → ℚ
  | .absent => 0
  | .unparseable => 0
  | .val q => q

/-- An ROI as loaded from the ROI zip: name, "comment" property,
planar area (`getStatistics().area`) and bounding-box origin
(`getBounds().x/y`). -/
structure Roi where
  name : String
  comment : BregmaProp
  area : ℚ
  x : ℤ
  y : ℤ
deriving DecidableEq

/-- Candidate connected component of the post-watershed binary raster
fed to the `ParticleAnalyzer`: planar area, whether it touches the
analyzed region's edge, and its bounding-box origin in crop-local
coordinates. -/
structure Particle where
  area : ℚ
  edge : Bool
  x : ℤ
  y : ℤ
deriving DecidableEq

/-- An image unit of the project, with the per-image lifecycle status
mutated by the worker. -/
structure ImageObj where
  filename : String
  full_path : String
  roi_path : String
  outline_path : String
  has_roi : Bool
  status : String
deriving DecidableEq

/-- External collaborators of the worker.  `openImage` models
`IJ.openImage` (`none` = could not open); `pixelResult` models the
image that `IJ.getImage()` yields after the pixel-classification macro
on a given crop path; `objectResult` likewise after the
object-classification macro on (raw crop path, probability path);
`candidates` models the connected components that the masking,
thresholding and watershed steps of `_analyze_results` produce from a
given label raster and ROI; `roisFor` models
`RoiManager.open(roi_path); getRoisAsArray()`; `outlineSaveOk` models
whether `RoiManager.runCommand("Save", outline_path)` succeeds. -/
structure Env where
  openImage : String → Option Img
  pixelResult : String → Option Img
  objectResult : String → String → Option Img
  candidates : Img → Roi → List Particle
  roisFor : String → List Roi
  outlineSaveOk : String → Bool

/-- Run settings and project paths used by the worker; `cancel`
models the cooperative cancellation flag: `isCancelled()` observed at
a moment when `roi_counter = k` returns true iff `cancel = some t`
with `t ≤ k` (cancellation requested after `t` ROIs were handled). -/
structure RunConfig where
  show_images : Bool
  cancel : Option ℕ
  tempDir : String
  probDir : String

/-- Cooperative cancellation flag (`SwingWorker.isCancelled`),
observed against the current `roi_counter`. -/
def isCancelled (cancel : Option ℕ) (counter : ℕ) : Bool :=
  match cancel with
  | none => false
  | some t => t ≤ counter

/-- Observable events of a run, used to state persistence-ordering
properties: an in-memory status mutation, a write of the status
ledger (`_sync_image_status_db` / `sync_project_db`), an external
classifier invocation, the two per-ROI outcomes, the outline-set
save, and the per-ROI progress advance. -/
inductive Event where
  | setStatus (filename status : String)
  | sync
  | classifierCall (s : StageCall)
  | roiFailed (filename roiName : String) (idx : ℕ)
  | recordAdded (filename roiName : String)
  | outlineSaved (path : String) (n : ℕ)
  | roiHandled
deriving DecidableEq

/-- Raw per-ROI measurement record (`single_roi_result`, source lines
277-284). -/
structure RawRecord where
  filename : String
  roi_name : String
  roi_area : ℚ
  bregma_value : ℚ
  cell_count : ℕ
  total_cell_area : ℚ
deriving DecidableEq

/-- Index of the last '.' in a character list, if any. -/
def lastDot : List Char → Option ℕ
  | [] => none
  | ch :: rest =>
    match lastDot rest with
    | some i => some (i + 1)
    | none => if ch = '.' then some 0 else none

/-- Root part of `os.path.splitext` for a plain file name: split at
the last '.' unless every character before it is itself a '.'
(leading-dots rule of `posixpath.splitext`). -/
def splitextBase (s : String) : String :=
  let cs := s.toList
  match lastDot cs with
  | none => s
  | some i => if (cs.take i).any (fun ch => ch ≠ '.') then String.mk (cs.take i) else s

/-- Path join for the relative components used by the worker
(`os.path.join(dir, name)`). -/
def pjoin (a b : String) : String := a ++ "/" ++ b

/-- Unique base name per (image, roi, index):
`"{image base}_{roi name}_{i}"` (source line 250). -/
def baseName (img : ImageObj) (roi : Roi) (i : ℕ) : String :=
  splitextBase img.filename ++ "_" ++ roi.name ++ "_" ++ toString i

/-- Floor of a rational, computed on numerator and denominator. -/
def floorQ (q : ℚ) : ℤ := q.num.fdiv q.den

/-- Nearest integer with ties to even, the rounding used by Python's
fixed-point float formatting.  (The modelled inputs are rationals; on
the values reachable here the tie case matches `"\x7b:.3f\x7d".format`.) -/
def roundHalfEven (q : ℚ) : ℤ :=
  let f := floorQ q
  let r := q - f
  if r < 1/2 then f
  else if 1/2 < r then f + 1
  else if f % 2 = 0 then f else f + 1

/-- Left-pad a fractional part to exactly three digits. -/
def pad3 (n : ℕ) : String :=
  if n < 10 then "00" ++ toString n
  else if n < 100 then "0" ++ toString n
  else toString n

/-- Python's fixed-point formatting to three decimal places,
`"\x7b:.3f\x7d".format(q)` (source line 561). -/
def format3 (q : ℚ) : String :=
  let n := roundHalfEven (q * 1000)
  let sign := if q < 0 then "-" else ""
  let m := n.natAbs
  sign ++ toString (m / 1000) ++ "." ++ pad3 (m % 1000)

/-- Aggregated output row (one entry of `final_results_list`,
source lines 556-563): the bregma value has been replaced by the
formatted group average. -/
structure AggRecord where
  filename : String
  roi_name : String
  roi_area : ℚ
  bregma_value : String
  cell_count : ℕ
  total_cell_area : ℚ
deriving DecidableEq

/-- Grouping key `(result['filename'], result['roi_name'])`. -/
abbrev Key := String × String

def keyOf (r : RawRecord) : Key := (r.filename, r.roi_name)

/-- Accumulated state of one group during aggregation: the summed
quantitative fields of `aggregated_results[key]` fused with the
bregma sum/count of `bregma_data[key]` (the source keeps these in two
dictionaries sharing the same keys and updated in lockstep, source
lines 540-553). -/
structure AggAcc where
  roi_area : ℚ
  cell_count : ℕ
  total_cell_area : ℚ
  bregma_sum : ℚ
  bregma_count : ℕ
deriving DecidableEq

/-- First record of a group (`result.copy()` plus bregma sum/count
initialisation, source lines 543-545). -/
def initAcc (r : RawRecord) : AggAcc :=
  { roi_area := r.roi_area, cell_count := r.cell_count,
    total_cell_area := r.total_cell_area,
    bregma_sum := r.bregma_value, bregma_count := 1 }

/-- Folding one more record of an existing group into its accumulator
(source lines 547-553). -/
def addAcc (a : AggAcc) (r : RawRecord) : AggAcc :=
  { roi_area := a.roi_area + r.roi_area,
    cell_count := a.cell_count + r.cell_count,
    total_cell_area := a.total_cell_area + r.total_cell_area,
    bregma_sum := a.bregma_sum + r.bregma_value,
    bregma_count := a.bregma_count + 1 }

/-- Insert one raw record into the keyed accumulator list, updating
the entry of its key if present (the dictionary update of source
lines 541-553, with insertion order kept). -/
def upsert (acc : List (Key × AggAcc)) (r : RawRecord) : List (Key × AggAcc) :=
  match acc with
  | [] => [(keyOf r, initAcc r)]
  | (k, a) :: rest =>
    if k = keyOf r then (k, addAcc a r) :: rest
    else (k, a) :: upsert rest r

/-- The grouping pass over `self.all_results` (source lines 540-553). -/
def aggFold (rs : List RawRecord) : List (Key × AggAcc) := rs.foldl upsert []

/-- Final per-group row: average bregma (guarding division by zero as
the source does) formatted to three decimals (source lines 556-561). -/
def finishAcc (e : Key × AggAcc) : AggRecord :=
  { filename := e.1.1, roi_name := e.1.2, roi_area := e.2.roi_area,
    bregma_value :=
      format3 (if 0 < e.2.bregma_count then e.2.bregma_sum / (e.2.bregma_count : ℚ) else 0),
    cell_count := e.2.cell_count, total_cell_area := e.2.total_cell_area }

/-- The aggregation performed by `done` on `self.all_results`
(source lines 535-563). -/
def aggregate (rs : List RawRecord) : List AggRecord :=
  (aggFold rs).map finishAcc

/-- One line of the persisted results table: the header row or a data
row. -/
inductive Row where
  | header
  | data (r : AggRecord)
deriving DecidableEq

/-- Appending the aggregated rows to the results table (source lines
566-573): the file is opened in append mode (`'ab'`), so the prior
content is kept; the header is written exactly when the file did not
exist or was empty.  `none` models an absent file. -/
def writeTable (t : Option (List Row)) (recs : List AggRecord) : List Row :=
  let content := t.getD []
  content ++ (if t.isNone || content.isEmpty then [Row.header] else [])
    ++ recs.map Row.data

/-- The staged classification resumer `_run_ilastik_classification`
(source lines 338-423).  Returns the outcome (an exception, or the
resulting label raster - `ok none` can arise only in the resume
branch when the stored artifact cannot be re-opened and images are
hidden), the file system after the call (artifact writes persist even
when a later stage fails), and the external classifier stages
invoked, in order. -/
def run_ilastik_classification (env : Env) (show_images : Bool) (fs : List String)
    (temp_cropped_path prob_map_path : String) :
    Except Unit (Option Img) × List String × List StageCall :=
  let pixel_prob_path := prob_map_path ++ "_probabilities.tif"
  let object_prob_path := prob_map_path ++ "_objects.tif"
  if object_prob_path ∈ fs then
    -- Case 1: the final object classification file already exists.
    match env.openImage object_prob_path with
    | some imp => (Except.ok (some imp), fs, [])
    | none =>
      -- `result_imp.show()` on None raises; with images hidden the
      -- None handle is returned and the caller's analysis step raises.
      if show_images then (Except.error (), fs, [])
      else (Except.ok none, fs, [])
  else if pixel_prob_path ∈ fs then
    -- Case 2: only the intermediate pixel probability file exists.
    match env.openImage pixel_prob_path with
    | none =>
      if show_images = false then
        -- `pixel_imp.hide()` on None raises before any stage runs.
        (Except.error (), fs, [])
      else
        -- pixel_imp is None; the truthiness guard skips the identity check.
        match env.objectResult temp_cropped_path pixel_prob_path with
        | none => (Except.error (), fs, [StageCall.object])
        | some obj =>
          (Except.ok (some obj), fs.insert object_prob_path, [StageCall.object])
    | some pixel_imp =>
      match env.objectResult temp_cropped_path pixel_prob_path with
      | none => (Except.error (), fs, [StageCall.object])
      | some obj =>
        if obj.imgId = pixel_imp.imgId then (Except.error (), fs, [StageCall.object])
        else (Except.ok (some obj), fs.insert object_prob_path, [StageCall.object])
  else
    -- Case 3: neither file exists; run the full workflow.
    match env.pixelResult temp_cropped_path with
    | none => (Except.error (), fs, [StageCall.pixel])
    | some pixel_imp =>
      let fs1 := fs.insert pixel_prob_path
      match env.objectResult temp_cropped_path pixel_prob_path with
      | none => (Except.error (), fs1, [StageCall.pixel, StageCall.object])
      | some obj =>
        if obj.imgId = pixel_imp.imgId then
          (Except.error (), fs1, [StageCall.pixel, StageCall.object])
        else
          (Except.ok (some obj), (fs1.insert object_prob_path),
            [StageCall.pixel, StageCall.object])

/-- Result of `_analyze_results`. -/
structure Analysis where
  count : ℕ
  total_area : ℚ
  outlines : List (ℤ × ℤ)
deriving DecidableEq

/-- Modelled from the spec: the ImageJ `ParticleAnalyzer` is an
external image-processing primitive (its code is not part of this
repository); per its documented contract it retains exactly the
particles whose area lies in the configured size range, dropping
edge-touching particles when `EXCLUDE_EDGE_PARTICLES` is set
(`none` as maximum size models `float('inf')`). -/
def particle_analyzer (minSize : ℚ) (maxSize : Option ℚ) (excludeEdges : Bool)
    (ps : List Particle) : List Particle :=
  ps.filter (fun p =>
    decide (minSize ≤ p.area) &&
    (match maxSize with
     | none => true
     | some m => decide (p.area ≤ m)) &&
    (!excludeEdges || !p.edge))

/-- The measurement step `_analyze_results` (source lines 426-507)
after the masking / thresholding / watershed steps have produced the
candidate components `cands`: the `ParticleAnalyzer` is configured
with minimum size 20, maximum `float('inf')` and
`EXCLUDE_EDGE_PARTICLES` (source lines 467-469); the count is the
results-table row count, the total area the sum of the Area column,
and each retained outline is translated by the ROI bounding-box
origin (source lines 494-499). -/
def analyze_results (cands : List Particle) (offset_x offset_y : ℤ) : Analysis :=
  let retained := particle_analyzer 20 none true cands
  { count := retained.length,
    total_area := (retained.map Particle.area).sum,
    outlines := retained.map (fun p => (p.x + offset_x, p.y + offset_y)) }

/-- Mutable state threaded through the background run: the file
system (as the set of existing paths), `roi_counter`, the collected
`self.all_results`, and the observable event trace. -/
structure PState where
  fs : List String
  counter : ℕ
  records : List RawRecord
  events : List Event
deriving DecidableEq

/-- Completion of one per-ROI iteration given the classification
outcome `out` (the tail of the try/except/finally of source lines
227-307): collect the record and outlines on success, log-and-skip on
failure; always delete the crop file and advance the progress
counter. -/
def roiFinish (env : Env) (img : ImageObj) (i : ℕ) (roi : Roi) (st : PState)
    (temp_cropped_path : String)
    (out : Except Unit (Option Img) × List String × List StageCall) :
    PState × List (ℤ × ℤ) :=
  let callEvs := out.2.2.map Event.classifierCall
  match out.1 with
  | Except.error _ =>
    ({ fs := out.2.1.erase temp_cropped_path, counter := st.counter + 1,
       records := st.records,
       events := st.events ++ callEvs ++ [Event.roiFailed img.filename roi.name i, Event.roiHandled] },
     [])
  | Except.ok none =>
    -- `_analyze_results` raises on a None raster; same skip path.
    ({ fs := out.2.1.erase temp_cropped_path, counter := st.counter + 1,
       records := st.records,
       events := st.events ++ callEvs ++ [Event.roiFailed img.filename roi.name i, Event.roiHandled] },
     [])
  | Except.ok (some result_imp) =>
    let analysis := analyze_results (env.candidates result_imp roi) roi.x roi.y
    let rec1 : RawRecord :=
      { filename := img.filename, roi_name := roi.name, roi_area := roi.area,
        bregma_value := bregmaOf roi.comment, cell_count := analysis.count,
        total_cell_area := analysis.total_area }
    ({ fs := out.2.1.erase temp_cropped_path, counter := st.counter + 1,
       records := st.records ++ [rec1],
       events := st.events ++ callEvs ++ [Event.recordAdded img.filename roi.name, Event.roiHandled] },
     analysis.outlines)

/-- Body of the per-ROI try/except/finally (source lines 227-307):
save the crop, run the staged classification, and finish the
iteration with `roiFinish`. -/
def processRoi (env : Env) (cfg : RunConfig) (img : ImageObj) (i : ℕ) (roi : Roi)
    (st : PState) : PState × List (ℤ × ℤ) :=
  let b := baseName img roi i
  let temp_cropped_path := pjoin cfg.tempDir (b ++ "_cropped.tif")
  let prob_map_path := pjoin cfg.probDir b
  let fs1 := st.fs.insert temp_cropped_path
  roiFinish env img i roi st temp_cropped_path
    (run_ilastik_classification env cfg.show_images fs1 temp_cropped_path prob_map_path)

/-- The enumerated ROI loop of one image (source lines 227-307),
with the cooperative cancellation check at each iteration boundary. -/
def processRois (env : Env) (cfg : RunConfig) (img : ImageObj) :
    List Roi → ℕ → PState → List (ℤ × ℤ) → PState × List (ℤ × ℤ)
  | [], _, st, outl => (st, outl)
  | roi :: rest, i, st, outl =>
    if isCancelled cfg.cancel st.counter then (st, outl)
    else
      let pr := processRoi env cfg img i roi st
      processRois env cfg img rest (i + 1) pr.1 (outl ++ pr.2)

/-- Per-image body of the outer loop (source lines 212-327): skip the
image when it has no ROI set or its source image cannot be opened
(status is left untouched in both cases); otherwise run all ROIs,
save the accumulated outlines if any (a failing save raises and is
caught by the image-level handler, which marks the image Failed), and
mark the image Completed. -/
def processImageBody (env : Env) (cfg : RunConfig) (st : PState) (img : ImageObj) :
    PState × ImageObj :=
  if img.has_roi = false then (st, img)
  else
    match env.openImage img.full_path with
    | none => (st, img)
    | some _ =>
      let rois := env.roisFor img.roi_path
      let pr := processRois env cfg img rois 0 st []
      let st1 := pr.1
      if pr.2.isEmpty then
        ({ st1 with events := st1.events ++ [Event.setStatus img.filename "Completed"] },
         { img with status := "Completed" })
      else if env.outlineSaveOk img.outline_path then
        ({ st1 with
             fs := st1.fs.insert img.outline_path
             events := st1.events ++ [Event.outlineSaved img.outline_path pr.2.length,
                                      Event.setStatus img.filename "Completed"] },
         { img with status := "Completed" })
      else
        ({ st1 with events := st1.events ++ [Event.setStatus img.filename "Failed"] },
         { img with status := "Failed" })

/-- The outer image loop (source lines 206-333), with the
cancellation check at the top of each iteration; on break the
remaining images are returned untouched. -/
def processImages (env : Env) (cfg : RunConfig) :
    List ImageObj → PState → PState × List ImageObj
  | [], st => (st, [])
  | img :: rest, st =>
    if isCancelled cfg.cancel st.counter then (st, img :: rest)
    else
      let pb := processImageBody env cfg st img
      let pi := processImages env cfg rest pb.1
      (pi.1, pb.2 :: pi.2)

/-- Total work units: the ROI counts of all selected images that have
an ROI set (source lines 194-200). -/
def totalRois (env : Env) (images : List ImageObj) : ℕ :=
  ((images.filter (fun i => i.has_roi)).map (fun i => (env.roisFor i.roi_path).length)).sum

/-- Outcome of the background task. -/
structure BGResult where
  images : List ImageObj
  st : PState
  message : String
deriving DecidableEq

/-- The background run `doInBackground` (source lines 169-335): set
every selected image's status to Processing, persist the ledger at
once, count the ROIs, return early when there is no work, otherwise
run the image loop and report how many ROIs were handled. -/
def doInBackground (env : Env) (cfg : RunConfig) (fs0 : List String)
    (images : List ImageObj) : BGResult :=
  let images1 := images.map (fun i => { i with status := "Processing" })
  let st0 : PState :=
    { fs := fs0, counter := 0, records := [],
      events := images.map (fun i => Event.setStatus i.filename "Processing") ++ [Event.sync] }
  let total := totalRois env images1
  if total = 0 then
    { images := images1, st := st0, message := "No ROIs to process." }
  else
    let out := processImages env cfg images1 st0
    { images := out.2, st := out.1,
      message := "Quantification completed successfully for " ++ toString out.1.counter ++ " ROIs." }

/-- Final observable outcome of one run. -/
structure PipeResult where
  images : List ImageObj
  records : List RawRecord
  table : Option (List Row)
  events : List Event
  message : String
deriving DecidableEq

/-- The completion handler `done` (source lines 532-600): when any
raw records were collected, aggregate them and append the rows to the
results table; finally persist the final statuses
(`sync_project_db`).  The handler's `except` clause is written as a
Jython `except Exception`, which matches Python exceptions but not
the Java `CancellationException`/`ExecutionException` thrown by
`SwingWorker.get`, so its Processing-to-Failed fallback does not fire
on the modelled paths; the `finally` ledger write always runs. -/
def done (bg : BGResult) (table0 : Option (List Row)) : PipeResult :=
  let table1 :=
    if bg.st.records.isEmpty then table0
    else some (writeTable table0 (aggregate bg.st.records))
  { images := bg.images, records := bg.st.records, table := table1,
    events := bg.st.events ++ [Event.sync], message := bg.message }

/-- One whole run: the background task followed by its completion
handler. -/
def runPipeline (env : Env) (cfg : RunConfig) (fs0 : List String)
    (images : List ImageObj) (table0 : Option (List Row)) : PipeResult :=
  done (doInBackground env cfg fs0 images) table0

/-! ## Claim C1: staged-resume branch behaviour -/

/-- C1: the resume branches of `_run_ilastik_classification` are
checked in the fixed order (object artifact, then pixel artifact,
then neither): an existing object-stage artifact is loaded and
returned with zero classifier calls; with only the pixel-stage
artifact present exactly one object-stage call (and no pixel-stage
call) is made and its result is persisted to the object artifact
path; with neither present one pixel-stage then one object-stage call
run and both results are persisted; consequently the pixel stage is
never re-run once its artifact exists. -/
theorem C1_staged_resume (env : Env) (sh : Bool) (fs : List String) (crop pm : String) :
    (∀ r, pm ++ "_objects.tif" ∈ fs →
      env.openImage (pm ++ "_objects.tif") = some r →
      run_ilastik_classification env sh fs crop pm = (Except.ok (some r), fs, [])) ∧
    (∀ p o, pm ++ "_objects.tif" ∉ fs → pm ++ "_probabilities.tif" ∈ fs →
      env.openImage (pm ++ "_probabilities.tif") = some p →
      env.objectResult crop (pm ++ "_probabilities.tif") = some o →
      o.imgId ≠ p.imgId →
      run_ilastik_classification env sh fs crop pm =
        (Except.ok (some o), fs.insert (pm ++ "_objects.tif"), [StageCall.object])) ∧
    (∀ p o, pm ++ "_objects.tif" ∉ fs → pm ++ "_probabilities.tif" ∉ fs →
      env.pixelResult crop = some p →
      env.objectResult crop (pm ++ "_probabilities.tif") = some o →
      o.imgId ≠ p.imgId →
      run_ilastik_classification env sh fs crop pm =
        (Except.ok (some o),
         (fs.insert (pm ++ "_probabilities.tif")).insert (pm ++ "_objects.tif"),
         [StageCall.pixel, StageCall.object])) ∧
    (pm ++ "_probabilities.tif" ∈ fs →
      StageCall.pixel ∉ (run_ilastik_classification env sh fs crop pm).2.2) := by
  refine ⟨?_, ?_, ?_, ?_⟩
  · intro r h1 h2
    simp [run_ilastik_classification, h1, h2]
  · intro p o h1 h2 h3 h4 h5
    simp [run_ilastik_classification, h1, h2, h3, h4, h5]
  · intro p o h1 h2 h3 h4 h5
    simp [run_ilastik_classification, h1, h2, h3, h4, h5]
  · intro hpix
    by_cases hobj : pm ++ "_objects.tif" ∈ fs
    · rcases ho : env.openImage (pm ++ "_objects.tif") with _ | r
      · cases sh <;> simp [run_ilastik_classification, hobj, ho]
      · simp [run_ilastik_classification, hobj, ho]
    · rcases ho : env.openImage (pm ++ "_probabilities.tif") with _ | p
      · cases sh
        · simp [run_ilastik_classification, hobj, hpix, ho]
        · rcases hr : env.objectResult crop (pm ++ "_probabilities.tif") with _ | o <;>
            simp [run_ilastik_classification, hobj, hpix, ho, hr]
      · rcases hr : env.objectResult crop (pm ++ "_probabilities.tif") with _ | o
        · simp [run_ilastik_classification, hobj, hpix, ho, hr]
        · by_cases hid : o.imgId = p.imgId <;>
            simp [run_ilastik_classification, hobj, hpix, ho, hr, hid]

/-- Concrete environment exercising the three resume branches. -/
def envC1 : Env :=
  { openImage := fun s => if s = "p_objects.tif" then some ⟨7⟩ else some ⟨8⟩
    pixelResult := fun _ => some ⟨1⟩
    objectResult := fun _ _ => some ⟨2⟩
    candidates := fun _ _ => []
    roisFor := fun _ => []
    outlineSaveOk := fun _ => true }

/-- Witness for C1 at a concrete environment: each branch evaluated. -/
theorem C1_staged_resume_witness :
    run_ilastik_classification envC1 false ["p_objects.tif"] "c" "p" =
      (Except.ok (some ⟨7⟩), ["p_objects.tif"], []) ∧
    run_ilastik_classification envC1 false ["p_probabilities.tif"] "c" "p" =
      (Except.ok (some ⟨2⟩), ["p_probabilities.tif"].insert ("p" ++ "_objects.tif"),
       [StageCall.object]) ∧
    run_ilastik_classification envC1 false [] "c" "p" =
      (Except.ok (some ⟨2⟩),
       (([] : List String).insert ("p" ++ "_probabilities.tif")).insert ("p" ++ "_objects.tif"),
       [StageCall.pixel, StageCall.object]) ∧
    StageCall.pixel ∉ (run_ilastik_classification envC1 false ["p_probabilities.tif"] "c" "p").2.2 := by
  refine ⟨?_, ?_, ?_, ?_⟩
  · exact (C1_staged_resume envC1 false ["p_objects.tif"] "c" "p").1 ⟨7⟩ (by decide) (by decide)
  · exact (C1_staged_resume envC1 false ["p_probabilities.tif"] "c" "p").2.1 ⟨8⟩ ⟨2⟩
      (by decide) (by decide) (by decide) (by decide) (by decide)
  · exact (C1_staged_resume envC1 false [] "c" "p").2.2.1 ⟨1⟩ ⟨2⟩
      (by decide) (by decide) (by decide) (by decide) (by decide)
  · exact (C1_staged_resume envC1 false ["p_probabilities.tif"] "c" "p").2.2.2 (by decide)

/-! ## Claim C7: append-only results table -/

/-- C7: every write of aggregated records to the results table keeps
the prior content as an unchanged prefix, writes the header row
exactly when the table file does not yet exist or is empty, and the
completion handler performs all its table writes through this append
operation. -/
theorem C7_table_append (t : Option (List Row)) (recs : List AggRecord) :
    (t.getD []) <+: writeTable t recs ∧
    ((writeTable t recs).drop (t.getD []).length = Row.header :: recs.map Row.data
        ↔ t = none ∨ t = some []) ∧
    ((writeTable t recs).drop (t.getD []).length = recs.map Row.data
        ↔ ¬(t = none ∨ t = some [])) ∧
    (∀ (bg : BGResult) (t0 : Option (List Row)),
      (done bg t0).table =
        if bg.st.records.isEmpty then t0
        else some (writeTable t0 (aggregate bg.st.records))) := by
  have hne : ∀ (l : List Row), Row.header :: l ≠ l := by
    intro l h
    have := congrArg List.length h
    simp at this
  refine ⟨?_, ?_, ?_, fun bg t0 => rfl⟩
  · unfold writeTable
    rw [List.append_assoc]
    exact List.prefix_append _ _
  · rcases t with _ | (_ | ⟨x, l⟩)
    · simp [writeTable]
    · simp [writeTable]
    · refine iff_of_false ?_ (by simp)
      rw [show writeTable (some (x :: l)) recs = (x :: l) ++ recs.map Row.data by
            simp [writeTable]]
      rw [Option.getD_some, List.drop_left]
      exact fun h => hne _ h.symm
  · rcases t with _ | (_ | ⟨x, l⟩)
    · refine iff_of_false ?_ (by simp)
      rw [show writeTable none recs = Row.header :: recs.map Row.data by simp [writeTable]]
      simp only [Option.getD_none, List.length_nil, List.drop_zero]
      exact hne (recs.map Row.data)
    · refine iff_of_false ?_ (by simp)
      rw [show writeTable (some []) recs = Row.header :: recs.map Row.data by simp [writeTable]]
      simp only [Option.getD_some, List.length_nil, List.drop_zero]
      exact hne (recs.map Row.data)
    · refine iff_of_true ?_ (by simp)
      rw [show writeTable (some (x :: l)) recs = (x :: l) ++ recs.map Row.data by
            simp [writeTable]]
      rw [Option.getD_some, List.drop_left]

/-! ## Claim C8: size and edge filtering -/

/-- C8: the connected-component measurement uses a minimum object
size of 20 area units, no maximum, and excludes edge-touching
objects: an object smaller than 20 area units or touching the
analyzed region's edge never contributes to the returned count,
total area, or outlines. -/
theorem C8_size_edge_filter (l1 l2 : List Particle) (p : Particle) (ox oy : ℤ)
    (h : p.area < 20 ∨ p.edge = true) :
    analyze_results (l1 ++ p :: l2) ox oy = analyze_results (l1 ++ l2) ox oy := by
  have hfilter : particle_analyzer 20 none true (l1 ++ p :: l2) =
      particle_analyzer 20 none true (l1 ++ l2) := by
    unfold particle_analyzer
    rw [List.filter_append, List.filter_append, List.filter_cons]
    rcases h with h | h
    · simp [decide_eq_false (not_le.mpr h)]
    · simp [h]
  unfold analyze_results
  rw [hfilter]

/-- Witness for C8: a particle of area 5 contributes nothing. -/
theorem C8_size_edge_filter_witness :
    ((5 : ℚ) < 20 ∨ (⟨5, false, 0, 0⟩ : Particle).edge = true) ∧
    analyze_results ([⟨25, false, 1, 1⟩] ++ (⟨5, false, 0, 0⟩ : Particle) :: []) 10 20 =
      analyze_results ([⟨25, false, 1, 1⟩] ++ []) 10 20 :=
  ⟨Or.inl (by norm_num),
   C8_size_edge_filter [⟨25, false, 1, 1⟩] [] ⟨5, false, 0, 0⟩ 10 20 (Or.inl (by norm_num))⟩

/-! ## Claim C2: aggregation by (image, roi) key -/

/-- Lookup of a key in the keyed accumulator list. -/
def lookupKey (k : Key) : List (Key × AggAcc) → Option AggAcc
  | [] => none
  | (k1, a) :: rest => if k1 = k then some a else lookupKey k rest

/-- All raw records of one (image, roi) group, in order. -/
def groupOf (rs : List RawRecord) (k : Key) : List RawRecord :=
  rs.filter (fun r => decide (keyOf r = k))

theorem lookupKey_upsert (acc : List (Key × AggAcc)) (r : RawRecord) (k : Key) :
    lookupKey k (upsert acc r) =
      if keyOf r = k then
        match lookupKey k acc with
        | none => some (initAcc r)
        | some a => some (addAcc a r)
      else lookupKey k acc := by
  induction acc with
  | nil =>
    by_cases hk : keyOf r = k <;> simp [upsert, lookupKey, hk]
  | cons hd tl ih =>
    obtain ⟨k1, a⟩ := hd
    simp only [upsert]
    by_cases h1 : k1 = keyOf r
    · simp only [if_pos h1, lookupKey]
      by_cases hk : k1 = k
      · have hrk : keyOf r = k := h1 ▸ hk
        simp [hk, hrk]
      · have hrk : ¬ keyOf r = k := fun hh => hk (h1.trans hh)
        simp [hk, hrk, lookupKey]
    · simp only [if_neg h1, lookupKey]
      by_cases hk : k1 = k
      · have hrk : ¬ keyOf r = k := fun hh => h1 (hk.trans hh.symm)
        simp [hk, hrk]
      · simp [hk, ih]

theorem aggFold_lookup (rs : List RawRecord) :
    ∀ (acc : List (Key × AggAcc)) (k : Key),
      lookupKey k (rs.foldl upsert acc) =
        match lookupKey k acc with
        | some a => some ((groupOf rs k).foldl addAcc a)
        | none =>
          match groupOf rs k with
          | [] => none
          | r :: g => some (g.foldl addAcc (initAcc r)) := by
  induction rs with
  | nil =>
    intro acc k
    rcases h : lookupKey k acc with _ | a <;> simp [groupOf, h]
  | cons r rest ih =>
    intro acc k
    rw [List.foldl_cons, ih (upsert acc r) k, lookupKey_upsert]
    by_cases hk : keyOf r = k
    · have hg : groupOf (r :: rest) k = r :: groupOf rest k := by
        simp [groupOf, List.filter_cons, hk]
      rcases h : lookupKey k acc with _ | a <;> simp [h, hg, hk]
    · have hg : groupOf (r :: rest) k = groupOf rest k := by
        simp [groupOf, List.filter_cons, hk]
      rcases h : lookupKey k acc with _ | a <;> simp [h, hg, hk]

theorem upsert_keys (acc : List (Key × AggAcc)) (r : RawRecord) :
    (upsert acc r).map Prod.fst =
      if keyOf r ∈ acc.map Prod.fst then acc.map Prod.fst
      else acc.map Prod.fst ++ [keyOf r] := by
  induction acc with
  | nil => simp [upsert]
  | cons hd tl ih =>
    obtain ⟨k1, a⟩ := hd
    by_cases h1 : k1 = keyOf r
    · subst h1
      simp [upsert]
    · have hne : ¬ keyOf r = k1 := fun h => h1 h.symm
      by_cases hm : keyOf r ∈ tl.map Prod.fst <;>
        simp [upsert, h1, hne, hm, ih]

theorem aggFold_keys_nodup (rs : List RawRecord) :
    ∀ acc : List (Key × AggAcc),
      (acc.map Prod.fst).Nodup → ((rs.foldl upsert acc).map Prod.fst).Nodup := by
  induction rs with
  | nil => intro acc h; simpa using h
  | cons r rest ih =>
    intro acc h
    rw [List.foldl_cons]
    refine ih (upsert acc r) ?_
    rw [upsert_keys]
    by_cases hm : keyOf r ∈ acc.map Prod.fst
    · simpa [hm] using h
    · simp [hm, List.nodup_append, h]

theorem filter_key_of_lookup (k : Key) :
    ∀ (l : List (Key × AggAcc)), (l.map Prod.fst).Nodup →
      l.filter (fun e => decide (e.1 = k)) =
        match lookupKey k l with
        | none => []
        | some a => [(k, a)] := by
  intro l
  induction l with
  | nil => intro _; simp [lookupKey]
  | cons hd tl ih =>
    intro hnd
    obtain ⟨k1, a⟩ := hd
    simp only [List.map_cons, List.nodup_cons] at hnd
    by_cases h1 : k1 = k
    · subst h1
      have htl : tl.filter (fun e => decide (e.1 = k1)) = [] := by
        refine List.filter_eq_nil_iff.mpr ?_
        intro e he hk
        have he1 : e.1 = k1 := by simpa using hk
        exact hnd.1 (he1 ▸ List.mem_map_of_mem Prod.fst he)
      simp [List.filter_cons, lookupKey, htl]
    · simp [List.filter_cons, lookupKey, h1, ih hnd.2]

theorem aggregate_filter_eq (rs : List RawRecord) (k : Key) :
    (aggregate rs).filter (fun a => decide ((a.filename, a.roi_name) = k)) =
      ((aggFold rs).filter (fun e => decide (e.1 = k))).map finishAcc := by
  unfold aggregate
  rw [List.filter_map]
  have hp : ((fun a => decide ((a.filename, a.roi_name) = k)) ∘ finishAcc) =
      (fun e : Key × AggAcc => decide (e.1 = k)) := by
    funext e
    simp [Function.comp, finishAcc]
  rw [hp]

theorem foldl_addAcc_roi_area (g : List RawRecord) :
    ∀ a : AggAcc, (g.foldl addAcc a).roi_area = a.roi_area + (g.map RawRecord.roi_area).sum := by
  induction g with
  | nil => intro a; simp
  | cons r rest ih => intro a; simp [ih, addAcc, add_assoc]

theorem foldl_addAcc_cell_count (g : List RawRecord) :
    ∀ a : AggAcc, (g.foldl addAcc a).cell_count = a.cell_count + (g.map RawRecord.cell_count).sum := by
  induction g with
  | nil => intro a; simp
  | cons r rest ih => intro a; simp [ih, addAcc, add_assoc]

theorem foldl_addAcc_total (g : List RawRecord) :
    ∀ a : AggAcc, (g.foldl addAcc a).total_cell_area =
      a.total_cell_area + (g.map RawRecord.total_cell_area).sum := by
  induction g with
  | nil => intro a; simp
  | cons r rest ih => intro a; simp [ih, addAcc, add_assoc]

theorem foldl_addAcc_bregma_sum (g : List RawRecord) :
    ∀ a : AggAcc, (g.foldl addAcc a).bregma_sum = a.bregma_sum + (g.map RawRecord.bregma_value).sum := by
  induction g with
  | nil => intro a; simp
  | cons r rest ih => intro a; simp [ih, addAcc, add_assoc]

theorem foldl_addAcc_bregma_count (g : List RawRecord) :
    ∀ a : AggAcc, (g.foldl addAcc a).bregma_count = a.bregma_count + g.length := by
  induction g with
  | nil => intro a; simp
  | cons r rest ih =>
    intro a
    rw [List.foldl_cons, ih, List.length_cons]
    simp only [addAcc]
    omega

/-- C2: for every group of raw records sharing the same (image
filename, roi name) key, the aggregator produces exactly one
aggregated record whose roi_area, cell_count and total_cell_area are
the sums over the group and whose bregma value is the arithmetic mean
of the group formatted to three decimal places as text. -/
theorem C2_aggregation (rs : List RawRecord) (k : Key) (h : groupOf rs k ≠ []) :
    (aggregate rs).filter (fun a => decide ((a.filename, a.roi_name) = k)) =
      [{ filename := k.1, roi_name := k.2,
         roi_area := ((groupOf rs k).map RawRecord.roi_area).sum,
         bregma_value :=
           format3 (((groupOf rs k).map RawRecord.bregma_value).sum / ((groupOf rs k).length : ℚ)),
         cell_count := ((groupOf rs k).map RawRecord.cell_count).sum,
         total_cell_area := ((groupOf rs k).map RawRecord.total_cell_area).sum }] := by
  obtain ⟨r, g, hg⟩ : ∃ r g, groupOf rs k = r :: g := by
    rcases hgr : groupOf rs k with _ | ⟨r, g⟩
    · exact absurd hgr h
    · exact ⟨r, g, rfl⟩
  have hl2 : lookupKey k (aggFold rs) = some (g.foldl addAcc (initAcc r)) := by
    have hl := aggFold_lookup rs [] k
    rw [show lookupKey k ([] : List (Key × AggAcc)) = none from rfl, hg] at hl
    simpa using hl
  rw [aggregate_filter_eq, filter_key_of_lookup k (aggFold rs) (aggFold_keys_nodup rs [] (by simp)),
    hl2, hg]
  simp only [List.map_cons, List.map_nil]
  congr 1
  unfold finishAcc
  simp only [AggRecord.mk.injEq]
  have hc : (g.foldl addAcc (initAcc r)).bregma_count = 1 + g.length := by
    rw [foldl_addAcc_bregma_count]; rfl
  refine ⟨trivial, trivial, ?_, ?_, ?_, ?_⟩
  · rw [foldl_addAcc_roi_area]
    simp [initAcc]
  · rw [if_pos (show 0 < (g.foldl addAcc (initAcc r)).bregma_count by omega)]
    congr 1
    rw [foldl_addAcc_bregma_sum, hc]
    simp only [initAcc, List.sum_cons, List.length_cons]
    push_cast
    ring
  · rw [foldl_addAcc_cell_count]
    simp [initAcc]
  · rw [foldl_addAcc_total]
    simp [initAcc]

/-- Raw records of the aggregation example. -/
def rawC2a : RawRecord :=
  { filename := "img", roi_name := "roi", roi_area := 10, bregma_value := 1,
    cell_count := 2, total_cell_area := 5 }

def rawC2b : RawRecord :=
  { filename := "img", roi_name := "roi", roi_area := 10, bregma_value := 2,
    cell_count := 3, total_cell_area := 7 }

/-- Witness for C2 at the spec's concrete example: the two raw
records aggregate to (20, 5, 12) with bregma text "1.500". -/
theorem C2_aggregation_witness :
    groupOf [rawC2a, rawC2b] ("img", "roi") ≠ [] ∧
    (aggregate [rawC2a, rawC2b]).filter
        (fun a => decide ((a.filename, a.roi_name) = (("img", "roi") : Key))) =
      [{ filename := "img", roi_name := "roi", roi_area := 20, bregma_value := "1.500",
         cell_count := 5, total_cell_area := 12 }] := by
  constructor
  · decide
  · rw [C2_aggregation [rawC2a, rawC2b] ("img", "roi") (by decide)]
    with_unfolding_all decide

/-! ## Orchestrator infrastructure -/

/-- Number of per-ROI failure events in a trace. -/
def countFails : List Event → ℕ
  | [] => 0
  | Event.roiFailed _ _ _ :: rest => countFails rest + 1
  | _ :: rest => countFails rest

theorem countFails_append (a b : List Event) :
    countFails (a ++ b) = countFails a + countFails b := by
  induction a with
  | nil => simp [countFails]
  | cons e rest ih =>
    cases e <;> simp [countFails, ih] <;> omega

theorem countFails_calls (calls : List StageCall) :
    countFails (calls.map Event.classifierCall) = 0 := by
  induction calls with
  | nil => rfl
  | cons c rest ih => simpa [countFails] using ih

theorem sync_not_mem_calls (calls : List StageCall) :
    Event.sync ∉ calls.map Event.classifierCall := by
  intro h
  rcases List.mem_map.mp h with ⟨c, _, hc⟩
  cases hc

/-- Well-behaved external collaborators: every image handle opens and
both classifier stages always produce a fresh result image.  Under
this the per-ROI step always succeeds. -/
def ClassifySucceeds (env : Env) : Prop :=
  (∀ p, env.openImage p ≠ none) ∧
  (∀ c, env.pixelResult c ≠ none) ∧
  (∀ c pp, env.objectResult c pp ≠ none) ∧
  (∀ c pp p o, env.pixelResult c = some p → env.objectResult c pp = some o →
    o.imgId ≠ p.imgId) ∧
  (∀ pp c p o, env.openImage pp = some p → env.objectResult c pp = some o →
    o.imgId ≠ p.imgId)

theorem classify_ok (env : Env) (Hs : ClassifySucceeds env) (sh : Bool) (fs : List String)
    (c pm : String) :
    ∃ r, (run_ilastik_classification env sh fs c pm).1 = Except.ok (some r) := by
  obtain ⟨H1, H2, H3, H4, H5⟩ := Hs
  by_cases hobj : pm ++ "_objects.tif" ∈ fs
  · rcases ho : env.openImage (pm ++ "_objects.tif") with _ | r
    · exact absurd ho (H1 _)
    · exact ⟨r, by simp [run_ilastik_classification, hobj, ho]⟩
  · by_cases hpix : pm ++ "_probabilities.tif" ∈ fs
    · rcases ho : env.openImage (pm ++ "_probabilities.tif") with _ | p
      · exact absurd ho (H1 _)
      · rcases hr : env.objectResult c (pm ++ "_probabilities.tif") with _ | o
        · exact absurd hr (H3 _ _)
        · exact ⟨o, by simp [run_ilastik_classification, hobj, hpix, ho, hr, H5 _ _ _ _ ho hr]⟩
    · rcases hp : env.pixelResult c with _ | p
      · exact absurd hp (H2 _)
      · rcases hr : env.objectResult c (pm ++ "_probabilities.tif") with _ | o
        · exact absurd hr (H3 _ _)
        · exact ⟨o, by simp [run_ilastik_classification, hobj, hpix, hp, hr, H4 _ _ _ _ hp hr]⟩

theorem roiFinish_shape (env : Env) (img : ImageObj) (i : ℕ) (roi : Roi) (st : PState)
    (tcp : String) (out : Except Unit (Option Img) × List String × List StageCall) :
    ∃ fsx t ro outl,
      roiFinish env img i roi st tcp out =
        ({ fs := fsx, counter := st.counter + 1, records := st.records ++ ro,
           events := st.events ++ t }, outl) ∧
      Event.sync ∉ t ∧
      ro.length + countFails t = 1 ∧
      (∀ r, out.1 = Except.ok (some r) → countFails t = 0 ∧ ro.length = 1) := by
  obtain ⟨res, fs2, calls⟩ := out
  rcases res with e | o
  · refine ⟨fs2.erase tcp,
      calls.map Event.classifierCall ++ [Event.roiFailed img.filename roi.name i, Event.roiHandled],
      [], [], ?_, ?_, ?_, ?_⟩
    · simp [roiFinish, List.append_assoc]
    · intro hmem
      rcases List.mem_append.mp hmem with hm | hm
      · exact sync_not_mem_calls calls hm
      · simp at hm
    · simp [countFails_append, countFails_calls, countFails]
    · intro r hr
      cases hr
  · rcases o with _ | r
    · refine ⟨fs2.erase tcp,
        calls.map Event.classifierCall ++ [Event.roiFailed img.filename roi.name i, Event.roiHandled],
        [], [], ?_, ?_, ?_, ?_⟩
      · simp [roiFinish, List.append_assoc]
      · intro hmem
        rcases List.mem_append.mp hmem with hm | hm
        · exact sync_not_mem_calls calls hm
        · simp at hm
      · simp [countFails_append, countFails_calls, countFails]
      · intro r2 hr
        cases hr
    · refine ⟨fs2.erase tcp,
        calls.map Event.classifierCall ++ [Event.recordAdded img.filename roi.name, Event.roiHandled],
        [{ filename := img.filename, roi_name := roi.name, roi_area := roi.area,
           bregma_value := bregmaOf roi.comment,
           cell_count := (analyze_results (env.candidates r roi) roi.x roi.y).count,
           total_cell_area := (analyze_results (env.candidates r roi) roi.x roi.y).total_area }],
        (analyze_results (env.candidates r roi) roi.x roi.y).outlines, ?_, ?_, ?_, ?_⟩
      · simp [roiFinish, List.append_assoc]
      · intro hmem
        rcases List.mem_append.mp hmem with hm | hm
        · exact sync_not_mem_calls calls hm
        · simp at hm
      · simp [countFails_append, countFails_calls, countFails]
      · intro r2 hr
        refine ⟨?_, rfl⟩
        simp [countFails_append, countFails_calls, countFails]

theorem processRoi_shape (env : Env) (cfg : RunConfig) (img : ImageObj) (i : ℕ) (roi : Roi)
    (st : PState) :
    ∃ fsx t ro outl,
      processRoi env cfg img i roi st =
        ({ fs := fsx, counter := st.counter + 1, records := st.records ++ ro,
           events := st.events ++ t }, outl) ∧
      Event.sync ∉ t ∧
      ro.length + countFails t = 1 ∧
      (ClassifySucceeds env → countFails t = 0 ∧ ro.length = 1) := by
  unfold processRoi
  obtain ⟨fsx, t, ro, outl, heq, hs, hc, hsucc⟩ := roiFinish_shape env img i roi st
    (pjoin cfg.tempDir (baseName img roi i ++ "_cropped.tif"))
    (run_ilastik_classification env cfg.show_images
      (st.fs.insert (pjoin cfg.tempDir (baseName img roi i ++ "_cropped.tif")))
      (pjoin cfg.tempDir (baseName img roi i ++ "_cropped.tif"))
      (pjoin cfg.probDir (baseName img roi i)))
  refine ⟨fsx, t, ro, outl, heq, hs, hc, fun Hs => ?_⟩
  obtain ⟨r, hr⟩ := classify_ok env Hs cfg.show_images
    (st.fs.insert (pjoin cfg.tempDir (baseName img roi i ++ "_cropped.tif")))
    (pjoin cfg.tempDir (baseName img roi i ++ "_cropped.tif"))
    (pjoin cfg.probDir (baseName img roi i))
  exact hsucc r hr

/-- Counter value reachable under an optional cancellation threshold:
without cancellation the loop runs to `x`; with threshold `t` it
stops at `t`. -/
def capAt : Option ℕ → ℕ → ℕ
  | none, x => x
  | some t, x => min t x

theorem countFails_single_set (f s : String) : countFails [Event.setStatus f s] = 0 := rfl

theorem processRois_shape (env : Env) (cfg : RunConfig) (img : ImageObj) :
    ∀ (rois : List Roi) (i : ℕ) (st : PState) (outl : List (ℤ × ℤ)),
      (∀ t0, cfg.cancel = some t0 → st.counter ≤ t0) →
      ∃ fsx tr ro outl2,
        processRois env cfg img rois i st outl =
          ({ fs := fsx, counter := capAt cfg.cancel (st.counter + rois.length),
             records := st.records ++ ro, events := st.events ++ tr }, outl2) ∧
        Event.sync ∉ tr ∧
        ro.length + countFails tr = capAt cfg.cancel (st.counter + rois.length) - st.counter ∧
        (ClassifySucceeds env →
          ro.length = capAt cfg.cancel (st.counter + rois.length) - st.counter) := by
  intro rois
  induction rois with
  | nil =>
    intro i st outl hpre
    have hcap : capAt cfg.cancel st.counter = st.counter := by
      rcases hc : cfg.cancel with _ | t0
      · simp [capAt]
      · have := hpre t0 hc
        simp only [capAt]
        omega
    refine ⟨st.fs, [], [], outl, ?_, by simp, ?_, fun _ => ?_⟩
    · simp only [processRois, List.length_nil, Nat.add_zero, hcap, List.append_nil]
    · simp [hcap, countFails]
    · simp [hcap]
  | cons roi rest ih =>
    intro i st outl hpre
    by_cases hcan : isCancelled cfg.cancel st.counter = true
    · obtain ⟨t0, hc, hle⟩ : ∃ t0, cfg.cancel = some t0 ∧ t0 ≤ st.counter := by
        rcases hcc : cfg.cancel with _ | t0
        · rw [hcc] at hcan
          simp [isCancelled] at hcan
        · rw [hcc] at hcan
          exact ⟨t0, rfl, by simpa [isCancelled] using hcan⟩
      have hcap : capAt cfg.cancel (st.counter + (rest.length + 1)) = st.counter := by
        have := hpre t0 hc
        rw [hc]
        simp only [capAt]
        omega
      refine ⟨st.fs, [], [], outl, ?_, by simp, ?_, fun _ => ?_⟩
      · simp only [processRois]
        rw [if_pos hcan]
        simp only [List.length_cons, hcap, List.append_nil]
      · simp only [List.length_nil, List.length_cons, countFails, hcap]
        omega
      · simp only [List.length_nil, List.length_cons, hcap]
        omega
    · have hpre1 : ∀ t0, cfg.cancel = some t0 → st.counter < t0 := by
        intro t0 hc
        rcases Nat.lt_or_ge st.counter t0 with h | h
        · exact h
        · exfalso
          apply hcan
          rw [hc]
          simp only [isCancelled, decide_eq_true_eq]
          omega
      obtain ⟨fsx1, t1, ro1, outl1, heq1, hs1, hc1, hsucc1⟩ := processRoi_shape env cfg img i roi st
      obtain ⟨fsx2, t2, ro2, outl2, heq2, hs2, hc2, hsucc2⟩ :=
        ih (i + 1) (processRoi env cfg img i roi st).1
          (outl ++ (processRoi env cfg img i roi st).2)
          (by
            intro t0 hc
            rw [heq1]
            exact hpre1 t0 hc)
      simp only [heq1] at hc2 hsucc2
      have hlen : st.counter + 1 + rest.length = st.counter + (roi :: rest).length := by
        simp only [List.length_cons]
        omega
      rw [hlen] at hc2 hsucc2
      have hX : st.counter + 1 ≤ capAt cfg.cancel (st.counter + (roi :: rest).length) := by
        rcases hc : cfg.cancel with _ | t0
        · simp only [capAt, List.length_cons]
          omega
        · have := hpre1 t0 hc
          simp only [capAt, List.length_cons]
          omega
      refine ⟨fsx2, t1 ++ t2, ro1 ++ ro2, outl2, ?_, ?_, ?_, ?_⟩
      · simp only [processRois]
        rw [if_neg hcan, heq2, heq1]
        have h2 : st.counter + 1 + rest.length = st.counter + (rest.length + 1) := by omega
        simp [h2, List.append_assoc]
      · intro hmem
        rcases List.mem_append.mp hmem with h | h
        · exact hs1 h
        · exact hs2 h
      · rw [List.length_append, countFails_append]
        omega
      · intro Hs
        obtain ⟨hf1, hr1⟩ := hsucc1 Hs
        have hr2 := hsucc2 Hs
        rw [List.length_append]
        omega

theorem totalRois_cons (env : Env) (img : ImageObj) (rest : List ImageObj) :
    totalRois env (img :: rest) =
      (if img.has_roi then (env.roisFor img.roi_path).length else 0) + totalRois env rest := by
  by_cases h : img.has_roi <;> simp [totalRois, List.filter_cons, h]

theorem totalRois_map_processing (env : Env) (images : List ImageObj) :
    totalRois env (images.map (fun i => { i with status := "Processing" })) =
      totalRois env images := by
  induction images with
  | nil => rfl
  | cons img rest ih => simp only [List.map_cons, totalRois_cons, ih]

theorem processRois_events (env : Env) (cfg : RunConfig) (img : ImageObj) :
    ∀ (rois : List Roi) (i : ℕ) (st : PState) (outl : List (ℤ × ℤ)),
      ∃ t, (processRois env cfg img rois i st outl).1.events = st.events ++ t ∧
        Event.sync ∉ t := by
  intro rois
  induction rois with
  | nil =>
    intro i st outl
    exact ⟨[], by simp [processRois], by simp⟩
  | cons roi rest ih =>
    intro i st outl
    by_cases hcan : isCancelled cfg.cancel st.counter = true
    · refine ⟨[], ?_, by simp⟩
      simp only [processRois]
      rw [if_pos hcan]
      simp
    · obtain ⟨fsx1, t1, ro1, outl1, heq1, hs1, _, _⟩ := processRoi_shape env cfg img i roi st
      obtain ⟨t2, he2, hs2⟩ := ih (i + 1) (processRoi env cfg img i roi st).1
        (outl ++ (processRoi env cfg img i roi st).2)
      refine ⟨t1 ++ t2, ?_, ?_⟩
      · simp only [processRois]
        rw [if_neg hcan, he2, heq1]
        simp [List.append_assoc]
      · intro hmem
        rcases List.mem_append.mp hmem with h | h
        · exact hs1 h
        · exact hs2 h

theorem processImageBody_events (env : Env) (cfg : RunConfig) (st : PState) (img : ImageObj) :
    ∃ t, (processImageBody env cfg st img).1.events = st.events ++ t ∧ Event.sync ∉ t := by
  by_cases hroi : img.has_roi = false
  · exact ⟨[], by simp [processImageBody, hroi], by simp⟩
  · rcases hop : env.openImage img.full_path with _ | im
    · exact ⟨[], by simp [processImageBody, hroi, hop], by simp⟩
    · obtain ⟨t, ht, hs⟩ :=
        processRois_events env cfg img (env.roisFor img.roi_path) 0 st []
      by_cases houtl : (processRois env cfg img (env.roisFor img.roi_path) 0 st []).2.isEmpty
      · refine ⟨t ++ [Event.setStatus img.filename "Completed"], ?_, ?_⟩
        · simp only [processImageBody, hroi, hop, houtl]
          simp [ht, List.append_assoc]
        · intro hmem
          rcases List.mem_append.mp hmem with h | h
          · exact hs h
          · simp at h
      · by_cases hsv : env.outlineSaveOk img.outline_path = true
        · refine ⟨t ++ [Event.outlineSaved img.outline_path
              (processRois env cfg img (env.roisFor img.roi_path) 0 st []).2.length,
              Event.setStatus img.filename "Completed"], ?_, ?_⟩
          · simp only [processImageBody, hroi, hop, houtl, hsv]
            simp [ht, List.append_assoc]
          · intro hmem
            rcases List.mem_append.mp hmem with h | h
            · exact hs h
            · simp at h
        · refine ⟨t ++ [Event.setStatus img.filename "Failed"], ?_, ?_⟩
          · simp only [processImageBody, hroi, hop, houtl, hsv]
            simp [ht, List.append_assoc]
          · intro hmem
            rcases List.mem_append.mp hmem with h | h
            · exact hs h
            · simp at h

theorem processImages_events (env : Env) (cfg : RunConfig) :
    ∀ (imgs : List ImageObj) (st : PState),
      ∃ t, (processImages env cfg imgs st).1.events = st.events ++ t ∧ Event.sync ∉ t := by
  intro imgs
  induction imgs with
  | nil =>
    intro st
    exact ⟨[], by simp [processImages], by simp⟩
  | cons img rest ih =>
    intro st
    by_cases hcan : isCancelled cfg.cancel st.counter = true
    · refine ⟨[], ?_, by simp⟩
      simp only [processImages]
      rw [if_pos hcan]
      simp
    · obtain ⟨t1, ht1, hs1⟩ := processImageBody_events env cfg st img
      obtain ⟨t2, ht2, hs2⟩ := ih (processImageBody env cfg st img).1
      refine ⟨t1 ++ t2, ?_, ?_⟩
      · simp only [processImages]
        rw [if_neg hcan]
        rw [ht2, ht1]
        simp [List.append_assoc]
      · intro hmem
        rcases List.mem_append.mp hmem with h | h
        · exact hs1 h
        · exact hs2 h

theorem processImageBody_shape (env : Env) (cfg : RunConfig) (st : PState) (img : ImageObj)
    (hroi : img.has_roi = true) (hopen : env.openImage img.full_path ≠ none)
    (hsave : env.outlineSaveOk img.outline_path = true)
    (hpre : ∀ t0, cfg.cancel = some t0 → st.counter ≤ t0) :
    ∃ fsx tr ro,
      processImageBody env cfg st img =
        ({ fs := fsx,
           counter := capAt cfg.cancel (st.counter + (env.roisFor img.roi_path).length),
           records := st.records ++ ro, events := st.events ++ tr },
         { img with status := "Completed" }) ∧
      Event.sync ∉ tr ∧
      ro.length + countFails tr =
        capAt cfg.cancel (st.counter + (env.roisFor img.roi_path).length) - st.counter ∧
      (ClassifySucceeds env →
        ro.length =
          capAt cfg.cancel (st.counter + (env.roisFor img.roi_path).length) - st.counter) := by
  obtain ⟨im, him⟩ := Option.ne_none_iff_exists'.mp hopen
  obtain ⟨fsx, tr, ro, outl2, heq, hs, hcnt, hsucc⟩ :=
    processRois_shape env cfg img (env.roisFor img.roi_path) 0 st [] hpre
  have houtl2 : (processRois env cfg img (env.roisFor img.roi_path) 0 st []).2 = outl2 := by
    rw [heq]
  by_cases houtl : (processRois env cfg img (env.roisFor img.roi_path) 0 st []).2.isEmpty
  · refine ⟨fsx, tr ++ [Event.setStatus img.filename "Completed"], ro, ?_, ?_, ?_, ?_⟩
    · simp only [processImageBody, hroi, him, houtl]
      rw [heq]
      simp [List.append_assoc]
    · intro hmem
      rcases List.mem_append.mp hmem with h | h
      · exact hs h
      · simp at h
    · rw [countFails_append]
      simpa [countFails] using hcnt
    · intro Hs
      exact hsucc Hs
  · refine ⟨fsx.insert img.outline_path,
      tr ++ [Event.outlineSaved img.outline_path outl2.length,
             Event.setStatus img.filename "Completed"], ro, ?_, ?_, ?_, ?_⟩
    · simp only [processImageBody, hroi, him, houtl, hsave]
      rw [houtl2, heq]
      simp [List.append_assoc]
    · intro hmem
      rcases List.mem_append.mp hmem with h | h
      · exact hs h
      · simp at h
    · rw [countFails_append]
      simpa [countFails] using hcnt
    · intro Hs
      exact hsucc Hs

theorem processImages_shape (env : Env) (cfg : RunConfig) :
    ∀ (imgs : List ImageObj) (st : PState),
      (∀ t0, cfg.cancel = some t0 → st.counter ≤ t0) →
      (∀ img ∈ imgs, img.has_roi = true ∧ env.openImage img.full_path ≠ none ∧
        env.outlineSaveOk img.outline_path = true) →
      ∃ fsx tr ro k,
        (processImages env cfg imgs st).1 =
          { fs := fsx, counter := capAt cfg.cancel (st.counter + totalRois env imgs),
            records := st.records ++ ro, events := st.events ++ tr } ∧
        Event.sync ∉ tr ∧
        ro.length + countFails tr =
          capAt cfg.cancel (st.counter + totalRois env imgs) - st.counter ∧
        (ClassifySucceeds env →
          ro.length = capAt cfg.cancel (st.counter + totalRois env imgs) - st.counter) ∧
        k ≤ imgs.length ∧
        (processImages env cfg imgs st).2.drop k = imgs.drop k ∧
        (∀ img2 ∈ (processImages env cfg imgs st).2.take k, img2.status = "Completed") ∧
        (processImages env cfg imgs st).2.length = imgs.length ∧
        (cfg.cancel = none → k = imgs.length) := by
  intro imgs
  induction imgs with
  | nil =>
    intro st hpre H
    have hcap : capAt cfg.cancel st.counter = st.counter := by
      rcases hc : cfg.cancel with _ | t0
      · simp [capAt]
      · have := hpre t0 hc
        simp only [capAt]
        omega
    refine ⟨st.fs, [], [], 0, ?_, by simp, ?_, fun _ => ?_, by simp, by simp [processImages],
      by simp [processImages], by simp [processImages], fun _ => rfl⟩
    · simp only [processImages, totalRois, List.filter_nil, List.map_nil, List.sum_nil,
        Nat.add_zero, hcap, List.append_nil]
    · simp [totalRois, hcap, countFails]
    · simp [totalRois, hcap]
  | cons img rest ih =>
    intro st hpre H
    obtain ⟨hroi, hopen, hsave⟩ := H img (List.mem_cons_self img rest)
    have Hrest : ∀ i ∈ rest, i.has_roi = true ∧ env.openImage i.full_path ≠ none ∧
        env.outlineSaveOk i.outline_path = true := fun i hi => H i (List.mem_cons_of_mem img hi)
    by_cases hcan : isCancelled cfg.cancel st.counter = true
    · obtain ⟨t0, hc, hle⟩ : ∃ t0, cfg.cancel = some t0 ∧ t0 ≤ st.counter := by
        rcases hcc : cfg.cancel with _ | t0
        · rw [hcc] at hcan
          simp [isCancelled] at hcan
        · rw [hcc] at hcan
          exact ⟨t0, rfl, by simpa [isCancelled] using hcan⟩
      have hcap : capAt cfg.cancel (st.counter + totalRois env (img :: rest)) = st.counter := by
        have := hpre t0 hc
        rw [hc]
        simp only [capAt]
        omega
      have hout : processImages env cfg (img :: rest) st = (st, img :: rest) := by
        simp only [processImages]
        rw [if_pos hcan]
      refine ⟨st.fs, [], [], 0, ?_, by simp, ?_, fun _ => ?_, by simp, by simp [hout],
        by simp [hout], by simp [hout], fun hnone => absurd (hnone ▸ hc) (by simp)⟩
      · rw [hout, hcap]
        simp
      · simp [hcap, countFails]
      · simp [hcap]
    · obtain ⟨fsx1, tr1, ro1, hbody, hs1, hcnt1, hsucc1⟩ :=
        processImageBody_shape env cfg st img hroi hopen hsave hpre
      have hpre2 : ∀ t0, cfg.cancel = some t0 → (processImageBody env cfg st img).1.counter ≤ t0 := by
        intro t0 hc
        rw [hbody, hc]
        simp [capAt]
      obtain ⟨fsx2, tr2, ro2, k2, hrest, hs2, hcnt2, hsucc2, hk2, hdrop2, htake2, hlen2, hnone2⟩ :=
        ih (processImageBody env cfg st img).1 hpre2 Hrest
    
      simp only [hbody] at hrest hcnt2 hsucc2
      have l1 := (env.roisFor img.roi_path).length
      have hcomp : ∀ x,
          capAt cfg.cancel (capAt cfg.cancel (st.counter + (env.roisFor img.roi_path).length) + x) =
            capAt cfg.cancel (st.counter + ((env.roisFor img.roi_path).length + x)) := by
        intro x
        rcases cfg.cancel with _ | t0 <;> simp only [capAt] <;> omega
      have htot : totalRois env (img :: rest) =
          (env.roisFor img.roi_path).length + totalRois env rest := by
        rw [totalRois_cons]
        simp [hroi]
      have hXle : st.counter ≤ capAt cfg.cancel (st.counter + (env.roisFor img.roi_path).length) := by
        rcases hc : cfg.cancel with _ | t0
        · simp only [capAt]
          omega
        · have := hpre t0 hc
          simp only [capAt]
          omega
      have hYle : capAt cfg.cancel (st.counter + (env.roisFor img.roi_path).length) ≤
          capAt cfg.cancel (st.counter + totalRois env (img :: rest)) := by
        rw [htot]
        rcases cfg.cancel with _ | t0 <;> simp only [capAt] <;> omega
      have hout : processImages env cfg (img :: rest) st =
          ((processImages env cfg rest (processImageBody env cfg st img).1).1,
           (processImageBody env cfg st img).2 ::
             (processImages env cfg rest (processImageBody env cfg st img).1).2) := by
        simp only [processImages]
        rw [if_neg hcan]
      refine ⟨fsx2, tr1 ++ tr2, ro1 ++ ro2, k2 + 1, ?_, ?_, ?_, ?_, ?_, ?_, ?_, ?_, ?_⟩
      · rw [hout, hbody, hrest]
        rw [hcomp (totalRois env rest), ← htot]
        simp [List.append_assoc]
      · intro hmem
        rcases List.mem_append.mp hmem with h | h
        · exact hs1 h
        · exact hs2 h
      · rw [List.length_append, countFails_append]
        rw [hcomp (totalRois env rest), ← htot] at hcnt2
        omega
      · intro Hs
        have h1 := hsucc1 Hs
        have h2 := hsucc2 Hs
        rw [hcomp (totalRois env rest), ← htot] at h2
        rw [List.length_append]
        omega
      · simp only [List.length_cons]
        omega
      · rw [hout]
        simp only [List.drop_succ_cons]
        exact hdrop2
      · intro img2 hmem
        rw [hout] at hmem
        simp only [List.take_succ_cons] at hmem
        rcases List.mem_cons.mp hmem with h | h
        · rw [h, hbody]
        · exact htake2 img2 h
      · rw [hout]
        simp only [List.length_cons, hlen2]
      · intro hnone
        rw [hnone2 hnone]
        simp

theorem countFails_initial (images : List ImageObj) :
    countFails ((images.map (fun i => Event.setStatus i.filename "Processing")) ++ [Event.sync]) = 0 := by
  induction images with
  | nil => rfl
  | cons img rest ih => simpa [countFails] using ih

theorem doInBackground_nowork (env : Env) (cfg : RunConfig) (fs0 : List String)
    (images : List ImageObj)
    (h : totalRois env (images.map (fun i => { i with status := "Processing" })) = 0) :
    doInBackground env cfg fs0 images =
      { images := images.map (fun i => { i with status := "Processing" })
        st := { fs := fs0, counter := 0, records := [],
                events := images.map (fun i => Event.setStatus i.filename "Processing") ++
                  [Event.sync] }
        message := "No ROIs to process." } := by
  unfold doInBackground
  rw [if_pos h]

theorem doInBackground_run (env : Env) (cfg : RunConfig) (fs0 : List String)
    (images : List ImageObj)
    (h : ¬ totalRois env (images.map (fun i => { i with status := "Processing" })) = 0) :
    doInBackground env cfg fs0 images =
      { images := (processImages env cfg (images.map (fun i => { i with status := "Processing" }))
          { fs := fs0, counter := 0, records := [],
            events := images.map (fun i => Event.setStatus i.filename "Processing") ++
              [Event.sync] }).2
        st := (processImages env cfg (images.map (fun i => { i with status := "Processing" }))
          { fs := fs0, counter := 0, records := [],
            events := images.map (fun i => Event.setStatus i.filename "Processing") ++
              [Event.sync] }).1
        message := "Quantification completed successfully for " ++
          toString (processImages env cfg (images.map (fun i => { i with status := "Processing" }))
            { fs := fs0, counter := 0, records := [],
              events := images.map (fun i => Event.setStatus i.filename "Processing") ++
                [Event.sync] }).1.counter ++ " ROIs." } := by
  unfold doInBackground
  rw [if_neg h]

/-! ## Claim C3: failure condition and per-ROI isolation -/

/-- C3: the staged classification step raises exactly when an invoked
external stage returns no new output (the scrutinised result image is
absent, or its identity equals the probability image that is the
object stage's own input); and such a failure is confined to its ROI:
with no cancellation, every ROI of every (openable) image is still
handled (the counter reaches the total, every image completes, and
each ROI contributes either a raw record or a logged failure event,
whatever the classifier outcomes). -/
theorem C3_failure_condition_and_isolation :
    (∀ (env : Env) (sh : Bool) (fs : List String) (crop pm : String) (p : Img),
      pm ++ "_objects.tif" ∉ fs → pm ++ "_probabilities.tif" ∈ fs →
      env.openImage (pm ++ "_probabilities.tif") = some p →
      ((run_ilastik_classification env sh fs crop pm).1 = Except.error () ↔
        env.objectResult crop (pm ++ "_probabilities.tif") = none ∨
        ∃ o, env.objectResult crop (pm ++ "_probabilities.tif") = some o ∧
          o.imgId = p.imgId)) ∧
    (∀ (env : Env) (sh : Bool) (fs : List String) (crop pm : String),
      pm ++ "_objects.tif" ∉ fs → pm ++ "_probabilities.tif" ∉ fs →
      ((run_ilastik_classification env sh fs crop pm).1 = Except.error () ↔
        env.pixelResult crop = none ∨
        ∃ p, env.pixelResult crop = some p ∧
          (env.objectResult crop (pm ++ "_probabilities.tif") = none ∨
           ∃ o, env.objectResult crop (pm ++ "_probabilities.tif") = some o ∧
             o.imgId = p.imgId))) ∧
    (∀ (env : Env) (cfg : RunConfig) (fs0 : List String) (images : List ImageObj),
      cfg.cancel = none → 0 < totalRois env images →
      (∀ img ∈ images, img.has_roi = true ∧ env.openImage img.full_path ≠ none ∧
        env.outlineSaveOk img.outline_path = true) →
      (doInBackground env cfg fs0 images).st.counter = totalRois env images ∧
      (∀ img2 ∈ (doInBackground env cfg fs0 images).images, img2.status = "Completed") ∧
      (doInBackground env cfg fs0 images).st.records.length +
        countFails (doInBackground env cfg fs0 images).st.events =
          totalRois env images) := by
  refine ⟨?_, ?_, ?_⟩
  · intro env sh fs crop pm p h1 h2 h3
    rcases hr : env.objectResult crop (pm ++ "_probabilities.tif") with _ | o
    · simp [run_ilastik_classification, h1, h2, h3, hr]
    · by_cases hid : o.imgId = p.imgId
      · simp [run_ilastik_classification, h1, h2, h3, hr, hid]
      · simp [run_ilastik_classification, h1, h2, h3, hr, hid]
  · intro env sh fs crop pm h1 h2
    rcases hp : env.pixelResult crop with _ | p
    · simp [run_ilastik_classification, h1, h2, hp]
    · rcases hr : env.objectResult crop (pm ++ "_probabilities.tif") with _ | o
      · simp [run_ilastik_classification, h1, h2, hp, hr]
      · by_cases hid : o.imgId = p.imgId
        · simp [run_ilastik_classification, h1, h2, hp, hr, hid]
        · simp [run_ilastik_classification, h1, h2, hp, hr, hid]
  · intro env cfg fs0 images hcnone htot H
    have htot1 : totalRois env (images.map (fun i => { i with status := "Processing" })) =
        totalRois env images := totalRois_map_processing env images
    have H1 : ∀ img ∈ images.map (fun i => { i with status := "Processing" }),
        img.has_roi = true ∧ env.openImage img.full_path ≠ none ∧
        env.outlineSaveOk img.outline_path = true := by
      intro img hmem
      rcases List.mem_map.mp hmem with ⟨i0, hi0, rfl⟩
      exact H i0 hi0
    have hne : ¬ totalRois env (images.map (fun i => { i with status := "Processing" })) = 0 := by
      rw [htot1]
      omega
    obtain ⟨fsx, tr, ro, k, hst, hs, hcnt, hsucc, hk, hdrop, htake, hlen, hknone⟩ :=
      processImages_shape env cfg (images.map (fun i => { i with status := "Processing" }))
        { fs := fs0, counter := 0, records := [],
          events := images.map (fun i => Event.setStatus i.filename "Processing") ++ [Event.sync] }
        (by intro t0 hct; rw [hcnone] at hct; cases hct) H1
    rw [doInBackground_run env cfg fs0 images hne]
    simp only []
    rw [hst]
    refine ⟨?_, ?_, ?_⟩
    · rw [hcnone]
      simp [capAt, htot1]
    · intro img2 hmem
      apply htake
      rw [hknone hcnone, ← hlen, List.take_length]
      exact hmem
    · rw [hcnone] at hcnt
      simp only [capAt, Nat.zero_add, Nat.sub_zero] at hcnt
      simp only [List.nil_append, List.length_nil]
      rw [countFails_append, countFails_initial]
      simp only [Nat.zero_add]
      rw [htot1] at hcnt
      omega

/-! ## Claim C6: status persistence schedule (amended) -/

/-- Check of an event for being an in-memory status mutation. -/
def isSetStatusEv : Event → Bool
  | Event.setStatus _ _ => true
  | _ => false

/-- Formalization of claim C6 over a run trace: after every status
mutation (a batch of consecutive mutations counts as one), the next
non-mutation event must be a ledger write, before any further work. -/
def immediatelyPersisted : List Event → Bool
  | [] => true
  | Event.setStatus _ _ :: rest =>
    decide ((rest.dropWhile isSetStatusEv).head? = some Event.sync) && immediatelyPersisted rest
  | _ :: rest => immediatelyPersisted rest

/-- C6 amended: only the initial Processing mutations are persisted
before further work; the whole run performs exactly two ledger writes
— one directly after the initial Processing mutations and one at the
very end — so Completed/Failed mutations are persisted only by the
final write, not before the worker's next step. -/
theorem C6_amended_sync_schedule (env : Env) (cfg : RunConfig) (fs0 : List String)
    (images : List ImageObj) (table0 : Option (List Row)) :
    ∃ mid, (runPipeline env cfg fs0 images table0).events =
        images.map (fun i => Event.setStatus i.filename "Processing") ++
          Event.sync :: (mid ++ [Event.sync]) ∧
      Event.sync ∉ mid := by
  by_cases h : totalRois env (images.map (fun i => { i with status := "Processing" })) = 0
  · refine ⟨[], ?_, by simp⟩
    unfold runPipeline done
    rw [doInBackground_nowork env cfg fs0 images h]
    simp
  · obtain ⟨t, ht, hs⟩ := processImages_events env cfg
      (images.map (fun i => { i with status := "Processing" }))
      { fs := fs0, counter := 0, records := [],
        events := images.map (fun i => Event.setStatus i.filename "Processing") ++ [Event.sync] }
    refine ⟨t, ?_, hs⟩
    unfold runPipeline done
    rw [doInBackground_run env cfg fs0 images h]
    simp only []
    rw [ht]
    simp [List.append_assoc]

/-! ## Claim C10: empty work list -/

/-- C10: with zero total ROIs, the run first sets and persists every
selected image's status to Processing, returns early with the message
"No ROIs to process.", touches neither the records nor the results
table, and the final persistence leaves every selected image's status
as Processing. -/
theorem C10_no_rois (env : Env) (cfg : RunConfig) (fs0 : List String)
    (images : List ImageObj) (table0 : Option (List Row))
    (h : totalRois env images = 0) :
    (runPipeline env cfg fs0 images table0).message = "No ROIs to process." ∧
    (runPipeline env cfg fs0 images table0).images =
      images.map (fun i => { i with status := "Processing" }) ∧
    (runPipeline env cfg fs0 images table0).table = table0 ∧
    (runPipeline env cfg fs0 images table0).records = [] ∧
    (runPipeline env cfg fs0 images table0).events =
      images.map (fun i => Event.setStatus i.filename "Processing") ++
        [Event.sync, Event.sync] := by
  have h1 : totalRois env (images.map (fun i => { i with status := "Processing" })) = 0 := by
    rw [totalRois_map_processing]
    exact h
  unfold runPipeline done
  rw [doInBackground_nowork env cfg fs0 images h1]
  refine ⟨rfl, rfl, rfl, rfl, by simp⟩

/-! ## Concrete fixtures -/

def roiR1 : Roi := { name := "r1", comment := BregmaProp.val 1, area := 10, x := 0, y := 0 }

def roiR2 : Roi := { name := "r2", comment := BregmaProp.val 2, area := 10, x := 5, y := 5 }

def imgA : ImageObj :=
  { filename := "imgA.tif", full_path := "Images/imgA.tif", roi_path := "ROIs/imgA.zip",
    outline_path := "Out/imgA_Outlines.zip", has_roi := true, status := "Ready to Quantify" }

def imgB : ImageObj :=
  { filename := "imgB.tif", full_path := "Images/imgB.tif", roi_path := "ROIs/imgB.zip",
    outline_path := "Out/imgB_Outlines.zip", has_roi := true, status := "Ready to Quantify" }

def imgNoRoi : ImageObj :=
  { filename := "imgC.tif", full_path := "Images/imgC.tif", roi_path := "ROIs/imgC.zip",
    outline_path := "Out/imgC_Outlines.zip", has_roi := false, status := "Ready to Quantify" }

def imgBad : ImageObj :=
  { filename := "bad.tif", full_path := "Images/bad.tif", roi_path := "ROIs/bad.zip",
    outline_path := "Out/bad_Outlines.zip", has_roi := true, status := "Ready to Quantify" }

/-- Environment in which every external step succeeds. -/
def envOk : Env :=
  { openImage := fun _ => some ⟨100⟩
    pixelResult := fun _ => some ⟨1⟩
    objectResult := fun _ _ => some ⟨2⟩
    candidates := fun _ _ => [⟨25, false, 3, 4⟩]
    roisFor := fun _ => [roiR1]
    outlineSaveOk := fun _ => true }

/-- Environment failing the object stage for imgA's first ROI only. -/
def envFail : Env :=
  { openImage := fun _ => some ⟨100⟩
    pixelResult := fun _ => some ⟨1⟩
    objectResult := fun c _ => if c = "temp/imgA_r1_0_cropped.tif" then none else some ⟨2⟩
    candidates := fun _ _ => []
    roisFor := fun _ => [roiR1]
    outlineSaveOk := fun _ => true }

/-- Environment that cannot open imgBad's source file. -/
def envC5 : Env :=
  { openImage := fun s => if s = "Images/bad.tif" then none else some ⟨100⟩
    pixelResult := fun _ => some ⟨1⟩
    objectResult := fun _ _ => some ⟨2⟩
    candidates := fun _ _ => []
    roisFor := fun _ => [roiR1]
    outlineSaveOk := fun _ => true }

/-- Environment with two ROIs per image, for mid-image cancellation. -/
def envTwo : Env :=
  { openImage := fun _ => some ⟨100⟩
    pixelResult := fun _ => some ⟨1⟩
    objectResult := fun _ _ => some ⟨2⟩
    candidates := fun _ _ => [⟨25, false, 3, 4⟩]
    roisFor := fun _ => [roiR1, roiR2]
    outlineSaveOk := fun _ => true }

def cfgNone : RunConfig :=
  { show_images := false, cancel := none, tempDir := "temp", probDir := "prob" }

def cfgCancel1 : RunConfig :=
  { show_images := false, cancel := some 1, tempDir := "temp", probDir := "prob" }

theorem envOk_succeeds : ClassifySucceeds envOk := by
  refine ⟨fun p => by simp [envOk], fun c => by simp [envOk], fun c pp => by simp [envOk], ?_, ?_⟩
  · intro c pp p o hp ho
    simp only [envOk] at hp ho
    cases hp
    cases ho
    decide
  · intro pp c p o hp ho
    simp only [envOk] at hp ho
    cases hp
    cases ho
    decide

/-- Witness for C3: with a classifier environment in which imgA's
only ROI fails its object stage, the batch still handles both ROIs,
both images complete, and the failing ROI yields a failure event
while the other yields a record. -/
theorem C3_witness :
    (doInBackground envFail cfgNone [] [imgA, imgB]).st.counter =
        totalRois envFail [imgA, imgB] ∧
    (∀ img2 ∈ (doInBackground envFail cfgNone [] [imgA, imgB]).images,
      img2.status = "Completed") ∧
    (doInBackground envFail cfgNone [] [imgA, imgB]).st.records.length +
        countFails (doInBackground envFail cfgNone [] [imgA, imgB]).st.events =
      totalRois envFail [imgA, imgB] := by
  exact C3_failure_condition_and_isolation.2.2 envFail cfgNone [] [imgA, imgB] rfl
    (by decide) (by decide)

/-- C6 counterexample: in a plain two-image run, the trace violates
the claimed discipline — the Completed mutation of the first image is
followed by further work (the second image's classifier calls) with
no ledger write in between. -/
theorem C6_counterexample :
    immediatelyPersisted (runPipeline envOk cfgNone [] [imgA, imgB] none).events = false := by
  with_unfolding_all decide

/-- Witness for C10 at a single image without an ROI set. -/
theorem C10_no_rois_witness :
    (runPipeline envOk cfgNone [] [imgNoRoi] none).message = "No ROIs to process." ∧
    (runPipeline envOk cfgNone [] [imgNoRoi] none).images =
      [imgNoRoi].map (fun i => { i with status := "Processing" }) ∧
    (runPipeline envOk cfgNone [] [imgNoRoi] none).table = none ∧
    (runPipeline envOk cfgNone [] [imgNoRoi] none).records = [] ∧
    (runPipeline envOk cfgNone [] [imgNoRoi] none).events =
      [imgNoRoi].map (fun i => Event.setStatus i.filename "Processing") ++
        [Event.sync, Event.sync] := by
  exact C10_no_rois envOk cfgNone [] [imgNoRoi] none (by decide)

/-! ## Claim C4: cancellation (amended) -/

/-- C4 amended: cancelling after N of M ROIs stops the run at the
next cancellation check, and exactly the N raw records already
collected are aggregated and appended to the results table (no
rollback); every image the loop started before the cancellation point
ends Completed, and every image not yet started keeps the Processing
status assigned and persisted at the start of the run — its pre-run
status is not restored, and no image becomes Failed. -/
theorem C4_amended_cancellation (env : Env) (cfg : RunConfig) (fs0 : List String)
    (images : List ImageObj) (table0 : Option (List Row)) (N : ℕ)
    (hc : cfg.cancel = some N) (hN : 0 < N) (hNle : N ≤ totalRois env images)
    (Hs : ClassifySucceeds env)
    (H : ∀ img ∈ images, img.has_roi = true ∧ env.openImage img.full_path ≠ none ∧
      env.outlineSaveOk img.outline_path = true) :
    (runPipeline env cfg fs0 images table0).records.length = N ∧
    (runPipeline env cfg fs0 images table0).table =
      some (writeTable table0 (aggregate (runPipeline env cfg fs0 images table0).records)) ∧
    (runPipeline env cfg fs0 images table0).images.length = images.length ∧
    ∃ k, k ≤ images.length ∧
      (runPipeline env cfg fs0 images table0).images.drop k =
        (images.map (fun i => { i with status := "Processing" })).drop k ∧
      ∀ img2 ∈ (runPipeline env cfg fs0 images table0).images.take k,
        img2.status = "Completed" := by
  have htot1 := totalRois_map_processing env images
  have H1 : ∀ img ∈ images.map (fun i => { i with status := "Processing" }),
      img.has_roi = true ∧ env.openImage img.full_path ≠ none ∧
      env.outlineSaveOk img.outline_path = true := by
    intro img hmem
    rcases List.mem_map.mp hmem with ⟨i0, hi0, rfl⟩
    exact H i0 hi0
  have hne : ¬ totalRois env (images.map (fun i => { i with status := "Processing" })) = 0 := by
    rw [htot1]
    omega
  obtain ⟨fsx, tr, ro, k, hst, hs, hcnt, hsucc, hk, hdrop, htake, hlen, hknone⟩ :=
    processImages_shape env cfg (images.map (fun i => { i with status := "Processing" }))
      { fs := fs0, counter := 0, records := [],
        events := images.map (fun i => Event.setStatus i.filename "Processing") ++ [Event.sync] }
      (fun t0 _ => Nat.zero_le t0) H1
  have hroLen : ro.length = N := by
    have h2 := hsucc Hs
    rw [hc] at h2
    simp only [capAt, Nat.zero_add, Nat.sub_zero] at h2
    rw [htot1] at h2
    omega
  have hronil : ro.isEmpty = false := by
    rcases ro with _ | ⟨a, ro2⟩
    · simp at hroLen
      omega
    · rfl
  have hrec : (runPipeline env cfg fs0 images table0).records = ro := by
    unfold runPipeline done
    rw [doInBackground_run env cfg fs0 images hne]
    simp only []
    rw [hst]
    simp
  have himg : (runPipeline env cfg fs0 images table0).images =
      (processImages env cfg (images.map (fun i => { i with status := "Processing" }))
        { fs := fs0, counter := 0, records := [],
          events := images.map (fun i => Event.setStatus i.filename "Processing") ++
            [Event.sync] }).2 := by
    unfold runPipeline done
    rw [doInBackground_run env cfg fs0 images hne]
  refine ⟨by rw [hrec, hroLen], ?_, ?_, k, ?_, ?_, ?_⟩
  · rw [hrec]
    unfold runPipeline done
    rw [doInBackground_run env cfg fs0 images hne]
    simp only []
    rw [hst]
    simp [hronil]
  · rw [himg, hlen]
    simp
  · rw [List.length_map] at hk
    exact hk
  · rw [himg]
    exact hdrop
  · rw [himg]
    exact htake

/-- C4 counterexample: with pre-run status "Ready to Quantify" on
both images and cancellation after 1 of 2 ROIs, the unprocessed
second image ends with persisted status "Processing", not its pre-run
status — the claim's "retains its pre-run status" fails. -/
theorem C4_counterexample :
    (runPipeline envOk cfgCancel1 [] [imgA, imgB] none).images.map ImageObj.status =
      ["Completed", "Processing"] ∧
    imgB.status = "Ready to Quantify" ∧
    ("Processing" : String) ≠ "Ready to Quantify" := by
  with_unfolding_all decide

/-- Witness for the amended C4 at a concrete two-image run cancelled
after one ROI. -/
theorem C4_amended_witness :
    (runPipeline envOk cfgCancel1 [] [imgA, imgB] none).records.length = 1 ∧
    (runPipeline envOk cfgCancel1 [] [imgA, imgB] none).table =
      some (writeTable none (aggregate (runPipeline envOk cfgCancel1 [] [imgA, imgB] none).records)) ∧
    (runPipeline envOk cfgCancel1 [] [imgA, imgB] none).images.length =
      ([imgA, imgB] : List ImageObj).length ∧
    ∃ k, k ≤ ([imgA, imgB] : List ImageObj).length ∧
      (runPipeline envOk cfgCancel1 [] [imgA, imgB] none).images.drop k =
        ([imgA, imgB].map (fun i => { i with status := "Processing" })).drop k ∧
      ∀ img2 ∈ (runPipeline envOk cfgCancel1 [] [imgA, imgB] none).images.take k,
        img2.status = "Completed" := by
  exact C4_amended_cancellation envOk cfgCancel1 [] [imgA, imgB] none 1 rfl (by decide)
    (by with_unfolding_all decide) envOk_succeeds (by with_unfolding_all decide)

/-! ## Claim C5: unopenable source image (amended) -/

theorem processImageBody_unopenable (env : Env) (cfg : RunConfig) (st : PState)
    (img : ImageObj) (hopen : env.openImage img.full_path = none) :
    processImageBody env cfg st img = (st, img) := by
  by_cases hroi : img.has_roi = false
  · simp [processImageBody, hroi]
  · simp [processImageBody, hroi, hopen]

theorem processImages_length (env : Env) (cfg : RunConfig) (hc : cfg.cancel = none) :
    ∀ (imgs : List ImageObj) (st : PState),
      (processImages env cfg imgs st).2.length = imgs.length := by
  intro imgs
  induction imgs with
  | nil => intro st; simp [processImages]
  | cons img rest ih =>
    intro st
    have hcan : ¬ isCancelled cfg.cancel st.counter = true := by
      rw [hc]
      simp [isCancelled]
    simp only [processImages]
    rw [if_neg hcan]
    simp [ih]

theorem processImages_append (env : Env) (cfg : RunConfig) (hc : cfg.cancel = none) :
    ∀ (as bs : List ImageObj) (st : PState),
      processImages env cfg (as ++ bs) st =
        ((processImages env cfg bs (processImages env cfg as st).1).1,
         (processImages env cfg as st).2 ++
           (processImages env cfg bs (processImages env cfg as st).1).2) := by
  intro as
  induction as with
  | nil =>
    intro bs st
    simp [processImages]
  | cons a rest ih =>
    intro bs st
    have hcan : ¬ isCancelled cfg.cancel st.counter = true := by
      rw [hc]
      simp [isCancelled]
    simp only [List.cons_append, processImages]
    rw [if_neg hcan, if_neg hcan]
    have hra : List.append rest bs = rest ++ bs := rfl
    rw [hra, ih]
    simp

theorem drop_append_cons_head {α : Type} (A : List α) (b : α) (C : List α) :
    ((A ++ b :: C).drop A.length).head? = some b := by
  rw [List.drop_left]
  rfl

theorem drop_append_cons_length {α : Type} (A : List α) (b : α) (C : List α) :
    (A ++ b :: C).drop (A.length + 1) = C := by
  have h1 : A ++ b :: C = (A ++ [b]) ++ C := by simp
  have h2 : A.length + 1 = (A ++ [b]).length := by simp
  rw [h1, h2, List.drop_left]

/-- C5 amended: an image whose source file cannot be opened is caught
at image granularity and skipped, but its status remains the
Processing assigned at run start — it is not set to Failed — while
the batch continues and later (well-behaved) images still complete. -/
theorem C5_amended_unopenable (env : Env) (cfg : RunConfig) (fs0 : List String)
    (table0 : Option (List Row)) (pre post : List ImageObj) (bad : ImageObj)
    (hc : cfg.cancel = none) (hroi : bad.has_roi = true)
    (hopen : env.openImage bad.full_path = none)
    (htot : ¬ totalRois env (pre ++ bad :: post) = 0)
    (Hpost : ∀ img ∈ post, img.has_roi = true ∧ env.openImage img.full_path ≠ none ∧
      env.outlineSaveOk img.outline_path = true) :
    (runPipeline env cfg fs0 (pre ++ bad :: post) table0).images.length =
      (pre ++ bad :: post).length ∧
    ((runPipeline env cfg fs0 (pre ++ bad :: post) table0).images.drop pre.length).head? =
      some { bad with status := "Processing" } ∧
    ({ bad with status := "Processing" } : ImageObj).status ≠ "Failed" ∧
    (∀ img2 ∈ (runPipeline env cfg fs0 (pre ++ bad :: post) table0).images.drop
        (pre.length + 1), img2.status = "Completed") := by
  have hne : ¬ totalRois env ((pre ++ bad :: post).map
      (fun i => { i with status := "Processing" })) = 0 := by
    rw [totalRois_map_processing]
    exact htot
  have himg : (runPipeline env cfg fs0 (pre ++ bad :: post) table0).images =
      (processImages env cfg ((pre ++ bad :: post).map (fun i => { i with status := "Processing" }))
        { fs := fs0, counter := 0, records := [],
          events := (pre ++ bad :: post).map (fun i => Event.setStatus i.filename "Processing") ++
            [Event.sync] }).2 := by
    unfold runPipeline done
    rw [doInBackground_run env cfg fs0 (pre ++ bad :: post) hne]
  have hmapsplit : (pre ++ bad :: post).map (fun i => ({ i with status := "Processing" } : ImageObj)) =
      pre.map (fun i => { i with status := "Processing" }) ++
        ({ bad with status := "Processing" } ::
          post.map (fun i => { i with status := "Processing" })) := by
    simp
  have hbadopen : env.openImage ({ bad with status := "Processing" } : ImageObj).full_path = none := hopen
  have hcanA : ¬ isCancelled cfg.cancel
      (processImages env cfg (pre.map (fun i => { i with status := "Processing" }))
        { fs := fs0, counter := 0, records := [],
          events := (pre ++ bad :: post).map (fun i => Event.setStatus i.filename "Processing") ++
            [Event.sync] }).1.counter = true := by
    rw [hc]
    simp [isCancelled]
  have hbadstep : ∀ st1 : PState, ¬ isCancelled cfg.cancel st1.counter = true →
      processImages env cfg ({ bad with status := "Processing" } ::
        post.map (fun i => { i with status := "Processing" })) st1 =
      ((processImages env cfg (post.map (fun i => { i with status := "Processing" })) st1).1,
       { bad with status := "Processing" } ::
         (processImages env cfg (post.map (fun i => { i with status := "Processing" })) st1).2) := by
    intro st1 hcan1
    simp only [processImages]
    rw [if_neg hcan1, processImageBody_unopenable env cfg st1 _ hbadopen]
  have hfinal : (runPipeline env cfg fs0 (pre ++ bad :: post) table0).images =
      (processImages env cfg (pre.map (fun i => { i with status := "Processing" }))
        { fs := fs0, counter := 0, records := [],
          events := (pre ++ bad :: post).map (fun i => Event.setStatus i.filename "Processing") ++
            [Event.sync] }).2 ++
      ({ bad with status := "Processing" } ::
        (processImages env cfg (post.map (fun i => { i with status := "Processing" }))
          (processImages env cfg (pre.map (fun i => { i with status := "Processing" }))
            { fs := fs0, counter := 0, records := [],
              events := (pre ++ bad :: post).map
                  (fun i => Event.setStatus i.filename "Processing") ++ [Event.sync] }).1).2) := by
    rw [himg, hmapsplit, processImages_append env cfg hc, hbadstep _ hcanA]
  have hAlen : (processImages env cfg (pre.map (fun i => { i with status := "Processing" }))
      { fs := fs0, counter := 0, records := [],
        events := (pre ++ bad :: post).map (fun i => Event.setStatus i.filename "Processing") ++
          [Event.sync] }).2.length = pre.length := by
    rw [processImages_length env cfg hc]
    simp
  have Hpost1 : ∀ img ∈ post.map (fun i => ({ i with status := "Processing" } : ImageObj)),
      img.has_roi = true ∧ env.openImage img.full_path ≠ none ∧
      env.outlineSaveOk img.outline_path = true := by
    intro img hmem
    rcases List.mem_map.mp hmem with ⟨i0, hi0, rfl⟩
    exact Hpost i0 hi0
  obtain ⟨fsxP, trP, roP, kP, hstP, hsP, hcntP, hsuccP, hkP, hdropP, htakeP, hlenP, hknoneP⟩ :=
    processImages_shape env cfg (post.map (fun i => { i with status := "Processing" }))
      (processImages env cfg (pre.map (fun i => { i with status := "Processing" }))
        { fs := fs0, counter := 0, records := [],
          events := (pre ++ bad :: post).map (fun i => Event.setStatus i.filename "Processing") ++
            [Event.sync] }).1
      (by intro t0 hct; rw [hc] at hct; cases hct) Hpost1
  have hallpost : ∀ img2 ∈ (processImages env cfg
      (post.map (fun i => { i with status := "Processing" }))
      (processImages env cfg (pre.map (fun i => { i with status := "Processing" }))
        { fs := fs0, counter := 0, records := [],
          events := (pre ++ bad :: post).map (fun i => Event.setStatus i.filename "Processing") ++
            [Event.sync] }).1).2, img2.status = "Completed" := by
    intro img2 hmem
    apply htakeP
    rw [hknoneP hc, ← hlenP, List.take_length]
    exact hmem
  refine ⟨?_, ?_, by simp, ?_⟩
  · rw [hfinal]
    simp only [List.length_append, List.length_cons, hAlen]
    rw [processImages_length env cfg hc]
    simp
  · rw [hfinal, ← hAlen]
    exact drop_append_cons_head _ _ _
  · intro img2 hmem
    rw [hfinal, ← hAlen, drop_append_cons_length] at hmem
    exact hallpost img2 hmem

/-- C5 counterexample: a batch with an unopenable first image leaves
that image's status "Processing", not the claimed "Failed", while the
second image completes. -/
theorem C5_counterexample :
    (runPipeline envC5 cfgNone [] [imgBad, imgB] none).images.map ImageObj.status =
      ["Processing", "Completed"] ∧
    ("Processing" : String) ≠ "Failed" := by
  with_unfolding_all decide

/-- Witness for the amended C5 at a concrete batch. -/
theorem C5_amended_witness :
    (runPipeline envC5 cfgNone [] ([] ++ imgBad :: [imgB]) none).images.length =
      (([] ++ imgBad :: [imgB] : List ImageObj)).length ∧
    ((runPipeline envC5 cfgNone [] ([] ++ imgBad :: [imgB]) none).images.drop
        ([] : List ImageObj).length).head? = some { imgBad with status := "Processing" } ∧
    ({ imgBad with status := "Processing" } : ImageObj).status ≠ "Failed" ∧
    (∀ img2 ∈ (runPipeline envC5 cfgNone [] ([] ++ imgBad :: [imgB]) none).images.drop
        (([] : List ImageObj).length + 1), img2.status = "Completed") := by
  exact C5_amended_unopenable envC5 cfgNone [] none [] [imgB] imgBad rfl rfl rfl
    (by with_unfolding_all decide) (by with_unfolding_all decide)

/-! ## Claim C9: cancellation observed mid-image -/

/-- C9: when cancellation is observed between ROI iterations of an
image being processed, the image is nevertheless finished exactly as
if its ROI list had been exhausted: the outlines accumulated from the
already-processed ROIs are saved as that image's outline-set artifact
(when any exist), and the image's status is set to Completed. -/
theorem C9_cancel_midimage (env : Env) (cfg : RunConfig) (st : PState) (img : ImageObj)
    (t0 : ℕ) (hc : cfg.cancel = some t0) (hroi : img.has_roi = true)
    (hopen : env.openImage img.full_path ≠ none)
    (hsave : env.outlineSaveOk img.outline_path = true)
    (hlow : st.counter < t0)
    (hhigh : t0 < st.counter + (env.roisFor img.roi_path).length) :
    (processImageBody env cfg st img).2 = { img with status := "Completed" } ∧
    ((processRois env cfg img (env.roisFor img.roi_path) 0 st []).2.isEmpty = false →
      img.outline_path ∈ (processImageBody env cfg st img).1.fs ∧
      Event.outlineSaved img.outline_path
          (processRois env cfg img (env.roisFor img.roi_path) 0 st []).2.length ∈
        (processImageBody env cfg st img).1.events) ∧
    ((processRois env cfg img (env.roisFor img.roi_path) 0 st []).2.isEmpty = true →
      (processImageBody env cfg st img).1 =
        { (processRois env cfg img (env.roisFor img.roi_path) 0 st []).1 with
            events := (processRois env cfg img (env.roisFor img.roi_path) 0 st []).1.events ++
              [Event.setStatus img.filename "Completed"] }) := by
  obtain ⟨im, him⟩ := Option.ne_none_iff_exists'.mp hopen
  by_cases houtl : (processRois env cfg img (env.roisFor img.roi_path) 0 st []).2.isEmpty = true
  · refine ⟨?_, ?_, fun _ => ?_⟩
    · simp [processImageBody, hroi, him, houtl]
    · intro hfalse
      rw [houtl] at hfalse
      cases hfalse
    · simp [processImageBody, hroi, him, houtl]
  · have houtl2 : (processRois env cfg img (env.roisFor img.roi_path) 0 st []).2.isEmpty = false := by
      simpa using houtl
    refine ⟨?_, fun _ => ⟨?_, ?_⟩, ?_⟩
    · simp [processImageBody, hroi, him, houtl2, hsave]
    · simp [processImageBody, hroi, him, houtl2, hsave, List.mem_insert_iff]
    · simp [processImageBody, hroi, him, houtl2, hsave]
    · intro htrue
      rw [houtl2] at htrue
      cases htrue

/-- Witness for C9: cancellation after one of imgA's two ROIs still
completes the image and saves the outline accumulated from the first
ROI. -/
theorem C9_cancel_midimage_witness :
    (processImageBody envTwo cfgCancel1
        { fs := [], counter := 0, records := [], events := [] } imgA).2 =
      { imgA with status := "Completed" } ∧
    imgA.outline_path ∈ (processImageBody envTwo cfgCancel1
        { fs := [], counter := 0, records := [], events := [] } imgA).1.fs ∧
    Event.outlineSaved imgA.outline_path
        (processRois envTwo cfgCancel1 imgA (envTwo.roisFor imgA.roi_path) 0
          { fs := [], counter := 0, records := [], events := [] } []).2.length ∈
      (processImageBody envTwo cfgCancel1
        { fs := [], counter := 0, records := [], events := [] } imgA).1.events := by
  have h := C9_cancel_midimage envTwo cfgCancel1
    { fs := [], counter := 0, records := [], events := [] } imgA 1 rfl rfl
    (by decide) rfl (by decide) (by with_unfolding_all decide)
  have h2 := h.2.1 (by with_unfolding_all decide)
  exact ⟨h.1, h2.1, h2.2⟩
